import Mathlib

/-!
Shallow embedding of rumprun's boot-time configuration interpreter
(src/lib/librumprun_base/config.c).

The JSON tree produced by the external parser (rumprun-base/json.h) is
modelled by `JValue`.  In the C code every `jvalue` carries its key name
`n`; here object members are `(String × JValue)` pairs and handlers that
read `v->n` receive the name as a separate argument.

Side effects are modelled by a state-and-trace monad `M`:
* fatal `errx`/`err` aborts are `Except.error`, carrying the message and
  the state at the moment of the abort (so that mutations already
  performed remain observable);
* `warnx` messages accumulate in a writer component;
* calls into the external platform adapter (rump_pub_netconfig_*,
  rumprun_sysctlw, setenv, etfs/vnd attachment, mount(2), file writes)
  are recorded as `Action`s in the trace.  Following the configuration
  interpreter's capability view, recorded capabilities succeed; the
  success of `mount(2)` at a given filesystem type is an oracle
  parameter `mount_ok` so that the probe order of `mount_blk` is kept.
* `mkdir(2)` is modelled against an explicit set of existing directories:
  it fails with EEXIST when the directory exists and succeeds otherwise
  (other host errnos are platform failures outside the model).

The static program registry `rumprun_bins[]` (generated at bake time,
not part of this repository's sources) is a parameter `bins`; the entry
point `rumprun_bins[i]->main` is modelled as the index `i`.
-/

namespace RumprunConfig

/-- Kinds of JSON nodes (`enum jtypes`).  `jnumber` exists in the C enum:
`sysctl_parse` tests for it explicitly. -/
inductive JKind where
  | knull | ktrue | kfalse | kstring | knumber | karray | kobject
deriving DecidableEq, Repr

/-- JSON tree (the `jvalue` tree of rumprun-base/json.h, names split out). -/
inductive JValue where
  | jnull : JValue
  | jtrue : JValue
  | jfalse : JValue
  | jstring (s : String) : JValue
  | jnumber (s : String) : JValue
  | jarray (elems : List JValue) : JValue
  | jobject (pairs : List (String × JValue)) : JValue

/-- `v->d`: the kind tag of a node. -/
def jkind : JValue → JKind
  | .jnull => .knull
  | .jtrue => .ktrue
  | .jfalse => .kfalse
  | .jstring _ => .kstring
  | .jnumber _ => .knumber
  | .jarray _ => .karray
  | .jobject _ => .kobject

/-- Reading `v->u.s`.  The C code reads this union member in a few places
without checking the kind first; for kinds where the member is not the
stored string the read is undefined and the model returns `""`. -/
def ustr : JValue → String
  | .jstring s => s
  | .jnumber s => s
  | _ => ""

/-- Reading `v->u.v` of an array node. -/
def uarr : JValue → List JValue
  | .jarray l => l
  | _ => []

/-- Reading `v->u.v` of an object node, as (name, value) pairs. -/
def jpairs : JValue → List (String × JValue)
  | .jobject l => l
  | _ => []

/-- Recorded calls to the external capability surface. -/
inductive Action where
  | sysctlw (key value : String)
  | setenvAct (name value : String)
  | dhcp4 (ifname : String)
  | ifaddr4 (ifname addr : String) (plen : Int)
  | autoconf6 (ifname : String)
  | ifaddr6 (ifname addr : String) (plen : Int)
  | ifcreate (ifname : String)
  | gw4 (addr : String)
  | gw6 (addr : String)
  | etfsRegister (key hostpath : String)
  | vndset (unit : Int) (path : String)
  | mkdirAct (path : String)
  | mountAct (fstype mp : String) (dev : Option String) (rdonly : Bool)
  | mountTmpfs (mp : String) (size : Int)
  | resolvOpen
  | resolvWrite (data : String)
deriving DecidableEq, Repr

/-- `RUMPRUN_EXEC_*` flag bits.  Modelled from the spec: the values live in
rumprun-base/rumprun.h which is not among the sources; all that the
configuration code uses is that they are distinct nonzero bits. -/
def RUMPRUN_EXEC_BACKGROUND : Nat := 1

/-- See `RUMPRUN_EXEC_BACKGROUND`. -/
def RUMPRUN_EXEC_PIPE : Nat := 2

/-- One planned program invocation (`struct rumprun_exec`).  `main` is the
index of the resolved registry entry (`rre_main`). -/
structure ExecEntry where
  main : Nat
  argv : List String
  flags : Nat
  workdir : Option String
  sc : List (String × String)
deriving DecidableEq, Repr

/-- Mutable world state threaded through the interpretation pass. -/
structure St where
  plan : List ExecEntry
  dirs : List String
  acts : List Action
deriving DecidableEq, Repr

/-- Computations: given a state, produce warnings plus either a fatal
error (message and state at abort time) or a value and the new state. -/
def M (α : Type) : Type := St → List String × Except (String × St) (α × St)

def mpure {α : Type} (a : α) : M α := fun s => ([], .ok (a, s))

def mbind {α β : Type} (x : M α) (f : α → M β) : M β := fun s =>
  match x s with
  | (w, .error e) => (w, .error e)
  | (w, .ok (a, s1)) =>
    let r := f a s1
    (w ++ r.1, r.2)

/-- `errx`/`err`: abort fatally with a message. -/
def mthrow {α : Type} (msg : String) : M α := fun s => ([msg], .error (msg, s))

/-- `warnx`: emit a warning and continue. -/
def mwarn (msg : String) : M Unit := fun s => ([msg], .ok ((), s))

def getSt : M St := fun s => ([], .ok (s, s))

def modSt (f : St → St) : M Unit := fun s => ([], .ok ((), f s))

/-- Record one capability call. -/
def emit (a : Action) : M Unit :=
  modSt (fun s => { s with acts := s.acts ++ [a] })

/-- Sequential iteration (the C `for` loops over lists/objects). -/
def mfor {α : Type} : List α → (α → M Unit) → M Unit
  | [], _ => mpure ()
  | a :: l, f => mbind (f a) (fun _ => mfor l f)

/-- `mkdir(2)` against the modelled directory set: an existing directory
yields EEXIST (observable as "no new directory"), otherwise the directory
is created and the call recorded. -/
def mkdirCall (path : String) : M Unit :=
  modSt (fun s =>
    if path ∈ s.dirs then s
    else { s with dirs := path :: s.dirs, acts := s.acts ++ [.mkdirAct path] })

/-- `jtypestr`: the C switch has no `jnumber` case, so a number prints as
"UNKNOWN". -/
def jtypestr : JKind → String
  | .knull => "NULL"
  | .ktrue => "BOOLEAN"
  | .kfalse => "BOOLEAN"
  | .kstring => "STRING"
  | .karray => "ARRAY"
  | .kobject => "OBJECT"
  | .knumber => "UNKNOWN"

/-- `jexpect`: abort unless the node has the expected kind. -/
def jexpect (t : JKind) (v : JValue) (loc : String) : M Unit :=
  if jkind v = t then mpure ()
  else mthrow (loc ++ ": expected " ++ jtypestr t ++ ", got " ++ jtypestr (jkind v))

/-- A handler receives the member's key name (the C `v->n`) and the node. -/
abbrev Handler : Type := String → JValue → M Unit

/-- An ordered handler table (`jhandler h[]`, sentinel dropped). -/
abbrev HandlerTable : Type := List (String × Handler)

/-- The inner scan of `handle_object`'s pass 1: first table entry whose
name matches, if any. -/
def findHandler : HandlerTable → String → Option Handler
  | [], _ => none
  | (hn, hf) :: rest, n => if n = hn then some hf else findHandler rest n

/-- The warning emitted for a key no handler matches. -/
def unknown_key_msg (loc n : String) : String :=
  loc ++ ": no match for key \"" ++ n ++ "\", ignored"

/-- Pass 1 of `handle_object`: warn about unmatched keys. -/
def handle_object_pass1 (h : HandlerTable) (pairs : List (String × JValue))
    (loc : String) : M Unit :=
  mfor pairs (fun p =>
    match findHandler h p.1 with
    | some _ => mpure ()
    | none => mwarn (unknown_key_msg loc p.1))

/-- Pass 2 of `handle_object`: for each table entry in declaration order,
invoke its handler on every matching pair in object-enumeration order. -/
def handle_object_pass2 (h : HandlerTable) (pairs : List (String × JValue))
    (_loc : String) : M Unit :=
  mfor h (fun he =>
    mfor pairs (fun p =>
      if p.1 = he.1 then he.2 p.1 p.2 else mpure ()))

/-- `handle_object`: two-pass table-ordered dispatch over an object node. -/
def handle_object (h : HandlerTable) (v : JValue) (loc : String) : M Unit :=
  mbind (jexpect .kobject v loc) (fun _ =>
    mbind (handle_object_pass1 h (jpairs v) loc) (fun _ =>
      handle_object_pass2 h (jpairs v) loc))

/-! ## Sysctl translator -/

/-- First loop of `sysctl_parse`: every value must be a boolean, a string
or a number, else abort naming the offending key. -/
def sysctl_parse_check : List (String × JValue) → Except String Unit
  | [] => .ok ()
  | (n, w) :: rest =>
    if jkind w = .ktrue ∨ jkind w = .kfalse ∨ jkind w = .kstring ∨
        jkind w = .knumber then
      sysctl_parse_check rest
    else
      .error ("invalid type for key \"" ++ n ++ "\" in \"sysctl_parse\"")

/-- Key construction of `sysctl_parse`: prepend the optional dot-separated
key pfx. -/
def sysctl_key (pfx : Option String) (n : String) : String :=
  match pfx with
  | some p => p ++ "." ++ n
  | none => n

/-- Value construction of `sysctl_parse`: true ↦ "1", false ↦ "0",
otherwise the stored string. -/
def sysctl_value : JValue → String
  | .jtrue => "1"
  | .jfalse => "0"
  | w => ustr w

/-- `sysctl_parse`: validate all value kinds, then produce one
(key, value) assignment per pair in enumeration order. -/
def sysctl_parse (pairs : List (String × JValue)) (pfx : Option String) :
    Except String (List (String × String)) :=
  match sysctl_parse_check pairs with
  | .error e => .error e
  | .ok _ => .ok (pairs.map (fun p => (sysctl_key pfx p.1, sysctl_value p.2)))

/-- `handle_sysctl`: parse the object and apply each assignment through
the `rumprun_sysctlw` capability. -/
def handle_sysctl (_name : String) (v : JValue) : M Unit :=
  mbind (jexpect .kobject v "handle_sysctl") (fun _ =>
    match sysctl_parse (jpairs v) none with
    | .error e => mthrow e
    | .ok sc => mfor sc (fun kv => emit (.sysctlw kv.1 kv.2)))

def handlers_netbsd : HandlerTable := [("sysctl", handle_sysctl)]

def handle_netbsd (_name : String) (v : JValue) : M Unit :=
  handle_object handlers_netbsd v "handle_netbsd"

/-! ## Boot plan builder -/

section Registry

variable (bins : List String)

/-- Scan of the registry loop in `getmain`, returning the index of the
first entry whose `binname` matches. -/
def getmain_go : Nat → List String → String → Option Nat
  | _, [], _ => none
  | i, b :: rest, nm => if b = nm then some i else getmain_go (i + 1) rest nm

/-- `getmain`: resolve a `bin` name against the static registry.  The
legacy name `*` resolves to the first entry unconditionally (the C code
dereferences `rumprun_bins[0]` without a check; an empty registry would
fault, modelled as an unresolvable name). -/
def getmain (binname : String) : Option Nat :=
  if binname = "*" then
    match bins with
    | [] => none
    | _ :: _ => some 0
  else getmain_go 0 bins binname

/-- Accumulator of `handle_bin`'s scanning loop (`v_bin` … `v_sysctl`). -/
structure BinScan where
  v_bin : Option String
  v_argv : Option (List JValue)
  v_runmode : Option String
  v_workdir : Option String
  v_sysctl : Option (List (String × JValue))

/-- The nested scan of a `netbsd` member inside an rc entry: only a
`sysctl` object is allowed. -/
def handle_bin_netbsd : List (String × JValue) → BinScan → M BinScan
  | [], acc => mpure acc
  | (n, w) :: rest, acc =>
    if n = "sysctl" then
      mbind (jexpect .kobject w "handle_bin") (fun _ =>
        handle_bin_netbsd rest { acc with v_sysctl := some (jpairs w) })
    else
      mthrow ("unexpected key \"" ++ n ++ "\" in \"handle_bin\"")

/-- The scanning loop of `handle_bin`: validate member kinds and record
the last occurrence of each known key; unknown keys are fatal. -/
def handle_bin_scan : List (String × JValue) → BinScan → M BinScan
  | [], acc => mpure acc
  | (n, w) :: rest, acc =>
    if n = "bin" then
      mbind (jexpect .kstring w "handle_bin") (fun _ =>
        handle_bin_scan rest { acc with v_bin := some (ustr w) })
    else if n = "argv" then
      mbind (jexpect .karray w "handle_bin") (fun _ =>
        handle_bin_scan rest { acc with v_argv := some (uarr w) })
    else if n = "runmode" then
      mbind (jexpect .kstring w "handle_bin") (fun _ =>
        handle_bin_scan rest { acc with v_runmode := some (ustr w) })
    else if n = "workdir" then
      mbind (jexpect .kstring w "handle_bin") (fun _ =>
        handle_bin_scan rest { acc with v_workdir := some (ustr w) })
    else if n = "netbsd" then
      mbind (jexpect .kobject w "handle_bin") (fun _ =>
        mbind (handle_bin_netbsd (jpairs w) acc) (fun acc2 =>
          handle_bin_scan rest acc2))
    else
      mthrow ("unexpected key \"" ++ n ++ "\" in \"handle_bin\"")

/-- The argv-counting loop of `handle_bin`: every element must be a
string. -/
def count_argv : List JValue → M Nat
  | [] => mpure 0
  | a :: rest =>
    mbind (jexpect .kstring a "handle_bin") (fun _ =>
      mbind (count_argv rest) (fun nn => mpure (nn + 1)))

/-- The runmode mapping of `handle_bin`: "" ↦ 0, "&" ↦ background,
"|" ↦ pipe, anything else fatal. -/
def runmode_flags (v_runmode : Option String) (binname : String) : M Nat :=
  match v_runmode with
  | none => mpure 0
  | some r =>
    if r = "" then mpure 0
    else if r = "&" then mpure RUMPRUN_EXEC_BACKGROUND
    else if r = "|" then mpure RUMPRUN_EXEC_PIPE
    else mthrow ("invalid runmode \"" ++ r ++ "\" for bin \"" ++ binname ++ "\"")

/-- `handle_bin`: turn one `rc` array element into an `ExecEntry` appended
to the boot plan. -/
def handle_bin (v : JValue) : M Unit :=
  mbind (jexpect .kobject v "handle_bin") (fun _ =>
    mbind (handle_bin_scan (jpairs v) ⟨none, none, none, none, none⟩) (fun acc =>
      match acc.v_bin with
      | none => mthrow "missing \"bin\" for rc entry"
      | some binname =>
        match getmain bins binname with
        | none => mthrow ("unknown \"bin\" \"" ++ binname ++ "\" in rc entry")
        | some binmain =>
          mbind (match acc.v_argv with
                 | none => mpure 0
                 | some l => count_argv l) (fun nargv =>
            let have_argv := nargv ≠ 0
            mbind (runmode_flags acc.v_runmode binname) (fun rreflags =>
              let argv :=
                if have_argv then (acc.v_argv.getD []).map ustr
                else [binname]
              match (match acc.v_sysctl with
                     | none => Except.ok []
                     | some ps => sysctl_parse ps (some "proc.curproc")) with
              | .error e => mthrow e
              | .ok sc =>
                modSt (fun s =>
                  { s with plan := s.plan ++
                      [{ main := binmain, argv := argv, flags := rreflags,
                         workdir := acc.v_workdir, sc := sc }] })))))

/-- `handle_rc`: the `rc` key is an array of exec entries. -/
def handle_rc (_name : String) (v : JValue) : M Unit :=
  mbind (jexpect .karray v "handle_rc") (fun _ =>
    mfor (uarr v) (fun el => handle_bin bins el))

/-- Loop body of `handle_rc_dummy`: append one foreground entry per
registry program, argv = [binname]. -/
def rc_dummy_go : Nat → List String → M Unit
  | _, [] => mpure ()
  | i, b :: rest =>
    mbind (modSt (fun s =>
      { s with plan := s.plan ++
          [{ main := i, argv := [b], flags := 0, workdir := none, sc := [] }] }))
      (fun _ => rc_dummy_go (i + 1) rest)

/-- The entries `handle_rc_dummy` appends, starting at registry index `i`. -/
def rc_dummy_entries : Nat → List String → List ExecEntry
  | _, [] => []
  | i, b :: rest =>
    { main := i, argv := [b], flags := 0, workdir := none, sc := [] } ::
      rc_dummy_entries (i + 1) rest

/-- `handle_rc_dummy`: populate the plan from the registry, returning the
number of registry entries. -/
def handle_rc_dummy : M Nat :=
  mbind (rc_dummy_go 0 bins) (fun _ => mpure bins.length)

end Registry

/-! ## Environment variables -/

/-- `handle_env`: each member must be a string; apply via `setenv`. -/
def handle_env (_name : String) (v : JValue) : M Unit :=
  mbind (jexpect .kobject v "handle_env") (fun _ =>
    mfor (jpairs v) (fun p =>
      mbind (jexpect .kstring p.2 "handle_env") (fun _ =>
        emit (.setenvAct p.1 (ustr p.2)))))

/-! ## Network translator -/

/-- C `atoi`: skip leading spaces, optional sign, then the longest run of
leading digits; anything that follows is ignored, and no digits at all
yields 0. -/
def atoi_digits : List Char → Int → Int
  | [], acc => acc
  | c :: rest, acc =>
    if c.isDigit then atoi_digits rest (acc * 10 + (c.toNat - '0'.toNat : Int))
    else acc

def c_isspace (c : Char) : Bool :=
  c = ' ' ∨ c = '\t' ∨ c = '\n' ∨ c = '\x0b' ∨ c = '\x0c' ∨ c = '\r'

def atoi (s : String) : Int :=
  let cs := s.data.dropWhile c_isspace
  match cs with
  | '-' :: rest => - atoi_digits rest 0
  | '+' :: rest => atoi_digits rest 0
  | _ => atoi_digits cs 0

/-- `strchr(addr, '/')` followed by splitting there: the part before the
first '/' and the part after it. -/
def strchr_split (s : String) : Option (String × String) :=
  match s.data.dropWhile (fun c => c ≠ '/') with
  | [] => none
  | _ :: rest => some (String.mk (s.data.takeWhile (fun c => c ≠ '/')), String.mk rest)

/-- `config_ipv4`: dhcp one-shot, or a static address split as
`address/prefixlen` with the prefix parsed by `atoi`. -/
def config_ipv4 (ifname method : String) (cidr : Option String) : M Unit :=
  if method = "dhcp" then
    emit (.dhcp4 ifname)
  else if method = "static" then
    match cidr with
    | none => mthrow ("config_ipv4: " ++ ifname ++ ": missing \"addr\"")
    | some c =>
      match strchr_split c with
      | none => mthrow ("config_ipv4: " ++ ifname ++ ": invalid \"addr\" specified")
      | some (addr, mask) => emit (.ifaddr4 ifname addr (atoi mask))
  else
    mthrow ("config_ipv4: " ++ ifname ++
      ": method \"static\" or \"dhcp\" expected, got \"" ++ method ++ "\"")

/-- `config_ipv6`: autoconfiguration, or a static `address/prefixlen`. -/
def config_ipv6 (ifname method : String) (addrmask : Option String) : M Unit :=
  if method = "auto" then
    emit (.autoconf6 ifname)
  else if method = "static" then
    match addrmask with
    | none => mthrow ("config_ipv6: " ++ ifname ++ ": missing \"addr\"")
    | some c =>
      match strchr_split c with
      | none => mthrow ("config_ipv6: " ++ ifname ++ ": invalid \"addr\" specified")
      | some (addr, mask) => emit (.ifaddr6 ifname addr (atoi mask))
  else
    mthrow ("config_ipv6: " ++ ifname ++
      ": method \"static\" or \"auto\" expected, got \"" ++ method ++ "\"")

/-- Accumulator of the scan over one `addrs[]` element: the C code reads
`u.s` of the type/method/addr members without a kind check. -/
structure AddrScan where
  type : Option String
  method : Option String
  addr : Option String

def addr_scan : List (String × JValue) → AddrScan → String → M AddrScan
  | [], acc, _ => mpure acc
  | (n, w) :: rest, acc, ifname =>
    if n = "type" then addr_scan rest { acc with type := some (ustr w) } ifname
    else if n = "method" then addr_scan rest { acc with method := some (ustr w) } ifname
    else if n = "addr" then addr_scan rest { acc with addr := some (ustr w) } ifname
    else
      mbind (mwarn ("handle_interface: unexpected key \"" ++ n ++ "\" in \"" ++
          ifname ++ ".addrs[]\"")) (fun _ => addr_scan rest acc ifname)

/-- Processing of one element of an interface's `addrs[]` array. -/
def handle_addr (ifname : String) (a : JValue) : M Unit :=
  mbind (jexpect .kobject a "handle_interface") (fun _ =>
    mbind (addr_scan (jpairs a) ⟨none, none, none⟩ ifname) (fun acc =>
      match acc.type, acc.method with
      | some ty, some method =>
        if ty = "inet" then config_ipv4 ifname method acc.addr
        else if ty = "inet6" then config_ipv6 ifname method acc.addr
        else mthrow ("handle_interface: address type \"" ++ ty ++
          "\" not supported in \"" ++ ifname ++ ".addrs[]\"")
      | _, _ =>
        mthrow ("handle_interface: missing type/method in \"" ++ ifname ++
          ".addrs[]\"")))

/-- Accumulator of `handle_interface`'s member scan. -/
structure IfScan where
  create : Option JValue
  addrs : Option (List JValue)

def if_scan : List (String × JValue) → IfScan → String → M IfScan
  | [], acc, _ => mpure acc
  | (n, w) :: rest, acc, ifname =>
    if n = "create" then
      if jkind w = .ktrue ∨ jkind w = .kfalse then
        if_scan rest { acc with create := some w } ifname
      else
        mthrow ("handle_interface: expected BOOLEAN for key\"create\" in \"" ++
          ifname ++ "\"")
    else if n = "addrs" then
      mbind (jexpect .karray w "handle_interface") (fun _ =>
        if_scan rest { acc with addrs := some (uarr w) } ifname)
    else
      mbind (mwarn ("handle_interface: unexpected key \"" ++ n ++ "\" in \"" ++
          ifname ++ "\", ignored")) (fun _ => if_scan rest acc ifname)

/-- `handle_interface`: optionally create the interface, then configure
each declared address; a missing `addrs` is only a warning. -/
def handle_interface (ifname : String) (v : JValue) : M Unit :=
  mbind (jexpect .kobject v "handle_interface") (fun _ =>
    mbind (if_scan (jpairs v) ⟨none, none⟩ ifname) (fun acc =>
      mbind (match acc.create with
             | some .jtrue => emit (.ifcreate ifname)
             | _ => mpure ()) (fun _ =>
        match acc.addrs with
        | none =>
          mwarn ("handle_interface: no addresses configured for interface \"" ++
            ifname ++ "\"")
        | some l => mfor l (handle_addr ifname))))

/-- `handle_interfaces`: an object keyed by interface name. -/
def handle_interfaces (_name : String) (v : JValue) : M Unit :=
  mbind (jexpect .kobject v "handle_interfaces") (fun _ =>
    mfor (jpairs v) (fun p => handle_interface p.1 p.2))

/-- Accumulator of the scan over one `gateways[]` element. -/
structure GwScan where
  type : Option String
  addr : Option String

def gw_scan : List (String × JValue) → GwScan → M GwScan
  | [], acc => mpure acc
  | (n, w) :: rest, acc =>
    if n = "type" then gw_scan rest { acc with type := some (ustr w) }
    else if n = "addr" then gw_scan rest { acc with addr := some (ustr w) }
    else
      mbind (mwarn ("handle_gateways: unexpected key \"" ++ n ++
          "\" in gateways[], ignored")) (fun _ => gw_scan rest acc)

/-- `handle_gateways`: add one default route per array element. -/
def handle_gateways (_name : String) (v : JValue) : M Unit :=
  mbind (jexpect .karray v "handle_gateways") (fun _ =>
    mfor (uarr v) (fun a =>
      mbind (jexpect .kobject a "handle_gateways") (fun _ =>
        mbind (gw_scan (jpairs a) ⟨none, none⟩) (fun acc =>
          match acc.type, acc.addr with
          | some ty, some addr =>
            if ty = "inet" then emit (.gw4 addr)
            else if ty = "inet6" then emit (.gw6 addr)
            else
              mthrow ("handle_gateways: gateway type \"" ++ ty ++
                "\" not supported in gateways[]")
          | _, _ => mthrow "handle_gateways: missing type/addr in gateways[]"))))

/-! ### DNS -/

/-- Accumulator of `handle_dns`'s member scan. -/
structure DnsScan where
  nameservers : Option (List JValue)
  search : Option (List JValue)

def dns_scan : List (String × JValue) → DnsScan → M DnsScan
  | [], acc => mpure acc
  | (n, w) :: rest, acc =>
    if n = "nameservers" then
      mbind (jexpect .karray w "handle_dns") (fun _ =>
        dns_scan rest { acc with nameservers := some (uarr w) })
    else if n = "search" then
      mbind (jexpect .karray w "handle_dns") (fun _ =>
        dns_scan rest { acc with search := some (uarr w) })
    else
      mbind (mwarn ("handle_dns: unexpected key \"" ++ n ++ "\", ignored"))
        (fun _ => dns_scan rest acc)

/-- The buffer bound of `handle_dns`:
`strlen("search ") + 1024 + 2`. -/
def dns_maxlen : Nat := 7 + 1024 + 2

/-- The nameserver loop of `handle_dns`: at most 3 entries, each a string
whose formatted line must fit the buffer; one `write` per line. -/
def dns_ns_loop (maxlen : Nat) : List JValue → Nat → M Unit
  | [], _ => mpure ()
  | a :: rest, n =>
    mbind (jexpect .kstring a "handle_dns") (fun _ =>
      if n + 1 > 3 then mthrow "handle_dns: too many nameservers (max 3)"
      else
        let line := "nameserver " ++ ustr a ++ "\n"
        if maxlen ≤ line.length then
          mthrow ("handle_dns: nameserver \"" ++ ustr a ++ "\" too long")
        else
          mbind (emit (.resolvWrite line)) (fun _ => dns_ns_loop maxlen rest (n + 1)))

/-- The search-list loop of `handle_dns`: at most 6 entries accumulated
into one space-joined line, tracking the remaining buffer space. -/
def dns_search_loop : List JValue → Nat → Nat → String → M String
  | [], _, _, buf => mpure buf
  | a :: rest, n, mlen, buf =>
    mbind (jexpect .kstring a "handle_dns") (fun _ =>
      if n + 1 > 6 then mthrow "handle_dns: too many search domains (max 6)"
      else
        let chunk := (if n + 1 = 1 then "search" else "") ++ " " ++ ustr a ++
          (if rest.isEmpty then "\n" else "")
        if mlen ≤ chunk.length then mthrow "handle_dns: search list too long"
        else dns_search_loop rest (n + 1) (mlen - chunk.length) (buf ++ chunk))

/-- `handle_dns`: write /etc/resolv.conf from the `nameservers` and
`search` arrays; with neither present, return before touching the file. -/
def handle_dns (_name : String) (v : JValue) : M Unit :=
  mbind (jexpect .kobject v "handle_dns") (fun _ =>
    mbind (dns_scan (jpairs v) ⟨none, none⟩) (fun acc =>
      match acc.nameservers, acc.search with
      | none, none => mpure ()
      | _, _ =>
        mbind (mkdirCall "/etc") (fun _ =>
          mbind (emit .resolvOpen) (fun _ =>
            mbind (match acc.nameservers with
                   | none => mpure ()
                   | some l => dns_ns_loop dns_maxlen l 0) (fun _ =>
              match acc.search with
              | none => mpure ()
              | some l =>
                mbind (dns_search_loop l 0 dns_maxlen "") (fun buf =>
                  if l.isEmpty then mpure ()
                  else emit (.resolvWrite buf)))))))

def handlers_net : HandlerTable :=
  [("interfaces", handle_interfaces), ("gateways", handle_gateways),
   ("dns", handle_dns)]

def handle_net (_name : String) (v : JValue) : M Unit :=
  handle_object handlers_net v "handle_net"

/-! ## Storage translator -/

/-- `configetfs`: register `/dev/<dev>` as a host-file-backed block
device.  The capability is recorded; with it succeeding the `hard`
failure path is not taken. -/
def configetfs (dev hostpath : String) (_hard : Bool) : M Unit :=
  emit (.etfsRegister ("/dev/" ++ dev) hostpath)

/-- `sscanf(dev, "vnd%d", &unit)`: literal prefix "vnd", then an optional
sign and at least one digit; trailing characters are ignored. -/
def sscanf_vnd (dev : String) : Option Int :=
  match dev.data with
  | 'v' :: 'n' :: 'd' :: rest =>
    let cs := rest.dropWhile c_isspace
    let (sgn, ds) :=
      match cs with
      | '-' :: r => ((-1 : Int), r)
      | '+' :: r => ((1 : Int), r)
      | r => ((1 : Int), r)
    if (ds.takeWhile Char.isDigit).isEmpty then none
    else some (sgn * atoi_digits (ds.takeWhile Char.isDigit) 0)
  | _ => none

/-- `configvnd`: parse the unit number and bind the host file read-only to
the raw vnd node.  Node creation (`mknod` from unit-0 majors) and the
`VNDIOCSET` ioctl are the platform capability, recorded as one action. -/
def configvnd (dev path : String) : M Unit :=
  match sscanf_vnd dev with
  | none => mthrow ("configvnd: invalid vnd name \"" ++ dev ++ "\"")
  | some unit => emit (.vndset unit path)

/-- Accumulator of `handle_blk`'s member scan. -/
structure BlkScan where
  type : Option String
  path : Option String

def blk_scan : List (String × JValue) → BlkScan → String → M BlkScan
  | [], acc, _ => mpure acc
  | (n, w) :: rest, acc, dev =>
    if n = "type" then
      mbind (jexpect .kstring w "handle_blk") (fun _ =>
        blk_scan rest { acc with type := some (ustr w) } dev)
    else if n = "path" then
      mbind (jexpect .kstring w "handle_blk") (fun _ =>
        blk_scan rest { acc with path := some (ustr w) } dev)
    else
      mthrow ("handle_blk: unexpected key \"" ++ n ++ "\" in \"" ++ dev ++ "\"")

/-- `handle_blk`: one block device, keyed by device name. -/
def handle_blk (dev : String) (v : JValue) : M Unit :=
  mbind (jexpect .kobject v "handle_blk") (fun _ =>
    mbind (blk_scan (jpairs v) ⟨none, none⟩ dev) (fun acc =>
      match acc.type, acc.path with
      | some ty, some path =>
        if ty = "etfs" then configetfs dev path true
        else if ty = "vnd" then configvnd dev path
        else
          mthrow ("handle_blk: unsupported type \"" ++ ty ++ "\" in \"" ++
            dev ++ "\"")
      | _, _ =>
        mthrow ("handle_blk: missing \"path\"/\"type\" in \"" ++ dev ++ "\"")))

def handle_blks (_name : String) (v : JValue) : M Unit :=
  mbind (jexpect .kobject v "handle_blks") (fun _ =>
    mfor (jpairs v) (fun p => handle_blk p.1 p.2))

/-! ### Mounting -/

section Mount

/- Success of `mount(2)` for a given filesystem type and mount point is
decided by the platform; it enters the model as an oracle. -/
variable (mount_ok : String → String → Bool)

/-- `mount_blk`: probe FFS, then ext2fs, then read-only cd9660, accepting
the first type the platform mounts. -/
def mount_blk (dev : Option String) (mp : String) (_options : Option JValue) :
    M Bool :=
  match dev with
  | none => mpure false
  | some d =>
    if mount_ok "ffs" mp then
      mbind (emit (.mountAct "ffs" mp (some d) false)) (fun _ => mpure true)
    else if mount_ok "ext2fs" mp then
      mbind (emit (.mountAct "ext2fs" mp (some d) false)) (fun _ => mpure true)
    else if mount_ok "cd9660" mp then
      mbind (emit (.mountAct "cd9660" mp (some d) true)) (fun _ => mpure true)
    else mpure false

/-- `mount_kernfs`. -/
def mount_kernfs (_dev : Option String) (mp : String) (_options : Option JValue) :
    M Bool :=
  if mount_ok "kernfs" mp then
    mbind (emit (.mountAct "kernfs" mp none false)) (fun _ => mpure true)
  else mpure false

/-- Multiplier for a trailing unit letter, as `dehumanize_number`'s
HN-style suffixes. -/
def dehumanize_multiplier (c : Char) : Option Int :=
  if c = 'b' ∨ c = 'B' then some 1
  else if c = 'k' ∨ c = 'K' then some 1024
  else if c = 'm' ∨ c = 'M' then some (1024 ^ 2)
  else if c = 'g' ∨ c = 'G' then some (1024 ^ 3)
  else if c = 't' ∨ c = 'T' then some (1024 ^ 4)
  else if c = 'p' ∨ c = 'P' then some (1024 ^ 5)
  else if c = 'e' ∨ c = 'E' then some (1024 ^ 6)
  else none

/-- `dehumanize_number` (libutil): an integer with an optional trailing
unit letter; anything else is rejected.  (64-bit overflow rejection is
outside the model.) -/
def dehumanize_number (s : String) : Option Int :=
  match s.data with
  | [] => none
  | cs =>
    let unitm : Option Int :=
      match cs.getLast? with
      | some c => if c.isAlpha then dehumanize_multiplier c else some 1
      | none => some 1
    let numPart : List Char :=
      match cs.getLast? with
      | some c => if c.isAlpha then cs.dropLast else cs
      | none => cs
    match unitm with
    | none => none
    | some m =>
      let (sgn, ds) :=
        match numPart with
        | '-' :: r => ((-1 : Int), r)
        | '+' :: r => ((1 : Int), r)
        | r => ((1 : Int), r)
      if ds ≠ [] ∧ ds.all Char.isDigit then
        some (sgn * (atoi_digits ds 0) * m)
      else none

/-- Scan of the tmpfs `options` object: only a string `size` is known. -/
def tmpfs_options_scan : List (String × JValue) → Option String → M (Option String)
  | [], acc => mpure acc
  | (n, w) :: rest, acc =>
    if n = "size" then
      mbind (jexpect .kstring w "mount_tmpfs") (fun _ =>
        tmpfs_options_scan rest (some (ustr w)))
    else
      mthrow ("mount_tmpfs: unexpected key \"" ++ n ++ "\" in \"options\"")

/-- `mount_tmpfs`: optional human-readable `size` (default "1M"), mounted
with `ta_size_max` set accordingly. -/
def mount_tmpfs (_dev : Option String) (mp : String) (options : Option JValue) :
    M Bool :=
  mbind (match options with
         | none => mpure none
         | some o =>
           mbind (jexpect .kobject o "mount_tmpfs") (fun _ =>
             tmpfs_options_scan (jpairs o) none)) (fun opt_size =>
    let sz := match opt_size with
      | none => "1M"
      | some x => x
    match dehumanize_number sz with
    | none => mthrow ("mount_tmpfs: bad size for " ++ mp)
    | some size =>
      if mount_ok "tmpfs" mp then
        mbind (emit (.mountTmpfs mp size)) (fun _ => mpure true)
      else mpure false)

/-- The `mounters[]` table. -/
def mounters : List (String × (Option String → String → Option JValue → M Bool)) :=
  [("blk", mount_blk mount_ok), ("kernfs", mount_kernfs mount_ok),
   ("tmpfs", mount_tmpfs mount_ok)]

end Mount

/-- One step of `mkdirhier`'s chunking walk consumes at least one
character when it continues. -/
theorem dropWhile_dropWhile_length_lt {α : Type} (q : α → Bool) :
    ∀ l : List α, ((l.dropWhile q).dropWhile (fun a => !q a)) ≠ [] →
      ((l.dropWhile q).dropWhile (fun a => !q a)).length < l.length := by
  intro l
  induction l with
  | nil => intro h; simp at h
  | cons a t ih =>
    intro h
    by_cases hq : q a = true
    · rw [List.dropWhile_cons_of_pos hq] at h ⊢
      exact Nat.lt_trans (ih h) (Nat.lt_succ_self _)
    · rw [List.dropWhile_cons_of_neg hq] at h ⊢
      have h2 : List.dropWhile (fun a => !q a) (a :: t) =
          List.dropWhile (fun a => !q a) t := by
        simp [List.dropWhile_cons, hq]
      rw [h2] at h ⊢
      calc ((t.dropWhile fun a => !q a)).length
          ≤ t.length := (List.dropWhile_sublist _).length_le
        _ < (a :: t).length := Nat.lt_succ_self _

/-- The successive prefixes `mkdirhier` calls `mkdir` on: each step skips
a run of '/' then a run of non-'/' (`strspn`/`strcspn`) and records the
path consumed so far. -/
def mkdirhier_chunks (acc rest : List Char) : List (List Char) :=
  let s1 := rest.takeWhile (fun c => c == '/')
  let r1 := rest.dropWhile (fun c => c == '/')
  let s2 := r1.takeWhile (fun c => !(c == '/'))
  let r2 := r1.dropWhile (fun c => !(c == '/'))
  let acc2 := acc ++ s1 ++ s2
  if h : r2.isEmpty then [acc2]
  else acc2 :: mkdirhier_chunks acc2 r2
termination_by rest.length
decreasing_by
  simp only [List.isEmpty_eq_true] at h
  exact dropWhile_dropWhile_length_lt (fun c => c == '/') rest h

/-- `mkdirhier`: create every prefix of the path, tolerating directories
that already exist. -/
def mkdirhier (path : String) : M Unit :=
  mfor (mkdirhier_chunks [] path.data) (fun cs => mkdirCall (String.mk cs))

section MountHandlers

variable (mount_ok : String → String → Bool)

/-- Accumulator of `handle_mount`'s member scan. -/
structure MountScan where
  source : Option String
  path : Option String
  options : Option JValue

def mount_scan : List (String × JValue) → MountScan → String → M MountScan
  | [], acc, _ => mpure acc
  | (n, w) :: rest, acc, mp =>
    if n = "source" then
      mbind (jexpect .kstring w "handle_mount") (fun _ =>
        mount_scan rest { acc with source := some (ustr w) } mp)
    else if n = "path" then
      mbind (jexpect .kstring w "handle_mount") (fun _ =>
        mount_scan rest { acc with path := some (ustr w) } mp)
    else if n = "options" then
      mbind (jexpect .kobject w "handle_mount") (fun _ =>
        mount_scan rest { acc with options := some w } mp)
    else
      mthrow ("handle_mount: unexpected key \"" ++ n ++ "\" in \"" ++ mp ++ "\"")

/-- The fatal diagnostic for a source no mounter matches. -/
def unknown_source_msg (source mp : String) : String :=
  "handle_mount: unknown source \"" ++ source ++ "\" in \"" ++ mp ++ "\""

/-- The `mounters[]` probe loop of `handle_mount`: the first entry whose
name matches the source runs (a `false` result is fatal); no match is the
unknown-source fatal error. -/
def run_mounters :
    List (String × (Option String → String → Option JValue → M Bool)) →
    String → Option String → String → Option JValue → M Unit
  | [], source, _, mp, _ => mthrow (unknown_source_msg source mp)
  | (nm, f) :: rest, source, path, mp, options =>
    if source = nm then
      mbind (f path mp options) (fun ok =>
        if ok then mpure ()
        else
          mthrow ("handle_mount: mount \"" ++
            (match path with | some p => p | none => "(none)") ++
            "\" on \"" ++ mp ++ "\" type \"" ++ source ++ "\" failed"))
    else run_mounters rest source path mp options

/-- `handle_mount`: one mount point; the mount-point directory hierarchy
is created before the source is looked up. -/
def handle_mount (mp : String) (v : JValue) : M Unit :=
  mbind (jexpect .kobject v "handle_mount") (fun _ =>
    mbind (mount_scan (jpairs v) ⟨none, none, none⟩ mp) (fun acc =>
      match acc.source with
      | none => mthrow ("handle_mount: missing \"source\" in \"" ++ mp ++ "\"")
      | some source =>
        mbind (mkdirhier mp) (fun _ =>
          run_mounters (mounters mount_ok) source acc.path mp acc.options)))

def handle_mounts (_name : String) (v : JValue) : M Unit :=
  mbind (jexpect .kobject v "handle_mounts") (fun _ =>
    mfor (jpairs v) (fun p => handle_mount mount_ok p.1 p.2))

end MountHandlers

/-! ## Top-level orchestrator -/

section Orchestrator

variable (bins : List String) (mount_ok : String → String → Bool)

/-- The root handler table: declaration order is the execution order. -/
def handlers_root : HandlerTable :=
  [("netbsd", handle_netbsd), ("rc", handle_rc bins), ("env", handle_env),
   ("blk", handle_blks), ("mount", handle_mounts mount_ok),
   ("net", handle_net)]

/-- `rumprun_config`, from the parsed document onward (locating and
parsing the document text is the external bootstrap): dispatch the root
handlers, fall back to the registry-derived plan when the plan is empty,
and reject a plan whose last entry pipes. -/
def rumprun_config (root : Option JValue) : M Unit :=
  mbind (match root with
         | some r => handle_object (handlers_root bins mount_ok) r "rumprun_config"
         | none => mwarn "could not find start of json.  no config?") (fun _ =>
    mbind getSt (fun s =>
      mbind (if s.plan.isEmpty then
               mbind (handle_rc_dummy bins) (fun nbins =>
                 if nbins = 0 then mthrow "internal error: no rumprun_execs[]"
                 else mpure ())
             else mpure ()) (fun _ =>
        mbind getSt (fun s2 =>
          match s2.plan.getLast? with
          | some rre =>
            if rre.flags &&& RUMPRUN_EXEC_PIPE ≠ 0 then
              mthrow "rumprun_config: last rc entry may not output to pipe"
            else mpure ()
          | none => mpure ()))))

end Orchestrator

/-! ## Basic lemmas about the effect monad -/

theorem mbind_mpure_left {α β : Type} (a : α) (f : α → M β) :
    mbind (mpure a) f = f a := by
  funext s
  simp [mbind, mpure]

theorem mfor_nil {α : Type} (f : α → M Unit) : mfor [] f = mpure () := rfl

theorem mfor_cons {α : Type} (a : α) (l : List α) (f : α → M Unit) :
    mfor (a :: l) f = mbind (f a) (fun _ => mfor l f) := rfl

theorem mfor_congr {α : Type} {l : List α} {f g : α → M Unit}
    (h : ∀ a ∈ l, f a = g a) : mfor l f = mfor l g := by
  induction l with
  | nil => rfl
  | cons a t ih =>
    rw [mfor_cons, mfor_cons, h a (List.mem_cons_self a t),
      ih (fun b hb => h b (List.mem_cons_of_mem a hb))]

/-- A guarded loop body skipping non-matching elements is a loop over the
filtered list. -/
theorem mfor_if_filter {α : Type} (l : List α) (p : α → Prop) [DecidablePred p]
    (f : α → M Unit) :
    mfor l (fun a => if p a then f a else mpure ()) =
      mfor (l.filter (fun a => decide (p a))) f := by
  induction l with
  | nil => rfl
  | cons a t ih =>
    rw [mfor_cons]
    by_cases hp : p a
    · have hd : decide (p a) = true := decide_eq_true hp
      rw [if_pos hp, List.filter_cons, hd, if_pos rfl, mfor_cons, ih]
    · have hd : decide (p a) = false := decide_eq_false hp
      rw [if_neg hp, mbind_mpure_left, List.filter_cons, hd, ih]
      simp

/-- Destructing a successful `mbind`. -/
theorem mbind_ok_elim {α β : Type} {x : M α} {f : α → M β} {s : St}
    {w : List String} {b : β} {s' : St}
    (h : mbind x f s = (w, .ok (b, s'))) :
    ∃ w1 a s1 w2, x s = (w1, .ok (a, s1)) ∧ f a s1 = (w2, .ok (b, s')) ∧
      w = w1 ++ w2 := by
  unfold mbind at h
  rcases hx : x s with ⟨w1, e⟩
  rw [hx] at h
  cases e with
  | error e0 => simp at h
  | ok as1 =>
    rcases as1 with ⟨a, s1⟩
    refine ⟨w1, a, s1, (f a s1).1, rfl, ?_, ?_⟩
    · have h2 : (f a s1).2 = .ok (b, s') := congrArg Prod.snd h
      calc f a s1 = ((f a s1).1, (f a s1).2) := rfl
        _ = ((f a s1).1, .ok (b, s')) := by rw [h2]
    · have h1 : w1 ++ (f a s1).1 = w := congrArg Prod.fst h
      exact h1.symm

/-- Result equivalence: same fatal/success outcome and final state, the
warning stream aside. -/
def sndEq {α : Type} (x y : M α) : Prop := ∀ s, (x s).2 = (y s).2

theorem sndEq_mbind {α β : Type} {x y : M α} (f : α → M β) (h : sndEq x y) :
    sndEq (mbind x f) (mbind y f) := by
  intro s
  unfold mbind
  rcases hx : x s with ⟨w1, e1⟩
  rcases hy : y s with ⟨w2, e2⟩
  have he : e1 = e2 := by
    have := h s
    rw [hx, hy] at this
    exact this
  subst he
  cases e1 with
  | error e0 => rfl
  | ok as1 => rfl

/-! ## Characterizations of the schema dispatcher -/

/-- The warnings pass 1 emits: one per pair no table entry matches. -/
def pass1_warnings (h : HandlerTable) (pairs : List (String × JValue))
    (loc : String) : List String :=
  (pairs.filter (fun p => (findHandler h p.1).isNone)).map
    (fun p => unknown_key_msg loc p.1)

/-- Pass 1 only warns: it succeeds on every state, leaves the state
untouched, and emits exactly the unknown-key warnings. -/
theorem handle_object_pass1_eq (h : HandlerTable) (pairs : List (String × JValue))
    (loc : String) :
    handle_object_pass1 h pairs loc =
      fun s => (pass1_warnings h pairs loc, .ok ((), s)) := by
  induction pairs with
  | nil => rfl
  | cons p t ih =>
    funext s
    unfold handle_object_pass1 at ih ⊢
    rw [mfor_cons]
    rcases hf : findHandler h p.1 with _ | hd
    · show (mbind (mwarn (unknown_key_msg loc p.1)) _) s = _
      rw [mbind] at *
      simp only [mwarn, ih]
      simp [pass1_warnings, List.filter_cons, hf]
    · show (mbind (mpure ()) _) s = _
      rw [mbind_mpure_left, ih]
      simp [pass1_warnings, List.filter_cons, hf]

/-- Pass 2 runs, for each table entry in declaration order, the handler on
exactly the pairs carrying that entry's key, in enumeration order. -/
theorem handle_object_pass2_eq (h : HandlerTable) (pairs : List (String × JValue))
    (loc : String) :
    handle_object_pass2 h pairs loc =
      mfor h (fun he =>
        mfor (pairs.filter (fun p => decide (p.1 = he.1)))
          (fun p => he.2 p.1 p.2)) := by
  unfold handle_object_pass2
  exact mfor_congr (fun he _ => mfor_if_filter pairs (fun p => p.1 = he.1) _)

/-- `handle_object` on an object node: pass-1 warnings prepended to the
run of pass 2. -/
theorem handle_object_jobject (h : HandlerTable) (pairs : List (String × JValue))
    (loc : String) (s : St) :
    handle_object h (.jobject pairs) loc s =
      (pass1_warnings h pairs loc ++ (handle_object_pass2 h pairs loc s).1,
       (handle_object_pass2 h pairs loc s).2) := by
  unfold handle_object
  have hje : jexpect .kobject (.jobject pairs) loc = mpure () := by
    unfold jexpect
    simp [jkind]
  rw [hje, mbind_mpure_left]
  show (mbind (handle_object_pass1 h (jpairs (.jobject pairs)) loc) _) s = _
  rw [mbind, handle_object_pass1_eq]
  rfl

/-- Two pair lists agreeing, per table key, on the subsequence of pairs
with that key produce the same pass-2 run. -/
theorem handle_object_pass2_filter_congr (h : HandlerTable)
    (p1 p2 : List (String × JValue)) (loc : String)
    (hf : ∀ he ∈ h, p1.filter (fun p => decide (p.1 = he.1)) =
      p2.filter (fun p => decide (p.1 = he.1))) :
    handle_object_pass2 h p1 loc = handle_object_pass2 h p2 loc := by
  rw [handle_object_pass2_eq, handle_object_pass2_eq]
  exact mfor_congr (fun he hhe => by rw [hf he hhe])

/-- Result equivalence of `handle_object` on two such objects. -/
theorem handle_object_sndEq (h : HandlerTable)
    (p1 p2 : List (String × JValue)) (loc : String)
    (hf : ∀ he ∈ h, p1.filter (fun p => decide (p.1 = he.1)) =
      p2.filter (fun p => decide (p.1 = he.1))) :
    sndEq (handle_object h (.jobject p1) loc) (handle_object h (.jobject p2) loc) := by
  intro s
  rw [handle_object_jobject, handle_object_jobject,
    handle_object_pass2_filter_congr h p1 p2 loc hf]

/-- A key equal to some table entry's key is matched by the pass-1 scan. -/
theorem findHandler_isSome_of_mem {h : HandlerTable} {he : String × Handler}
    (hhe : he ∈ h) : (findHandler h he.1).isSome := by
  induction h with
  | nil => cases hhe
  | cons hd t ih =>
    rcases hd with ⟨hn, hfn⟩
    rcases List.mem_cons.mp hhe with heq | hmem
    · subst heq
      unfold findHandler
      rw [if_pos rfl]
      rfl
    · unfold findHandler
      by_cases hx : he.1 = hn
      · rw [if_pos hx]; rfl
      · rw [if_neg hx]; exact ih hmem

/-- Restricting an object to its matched pairs does not change any table
key's subsequence. -/
theorem filter_matched_of_key (h : HandlerTable) (he : String × Handler)
    (hhe : he ∈ h) (pairs : List (String × JValue)) :
    (pairs.filter (fun p => (findHandler h p.1).isSome)).filter
        (fun p => decide (p.1 = he.1)) =
      pairs.filter (fun p => decide (p.1 = he.1)) := by
  rw [List.filter_filter]
  refine List.filter_congr ?_
  intro p _
  by_cases hk : p.1 = he.1
  · simp [hk, findHandler_isSome_of_mem hhe]
  · simp [hk]

/-- The empty starting state of one interpretation pass. -/
def st0 : St := ⟨[], [], []⟩

/-- C1: for every valid configuration document, permuting the order of its
top-level key/value pairs — with the occurrences of any duplicated key
kept in document-enumeration order, which is how they are applied within
that key's table slot — leaves the produced boot plan and the recorded
sysctl/network/storage action sequence (and the fatal outcome, if any)
unchanged: `handle_object` runs handlers in the fixed declaration order of
`handlers_root`, scanning the document once per table slot. -/
theorem C1_root_dispatch_table_order (bins : List String)
    (mount_ok : String → String → Bool) (p1 p2 : List (String × JValue))
    (hperm : p1.Perm p2)
    (hf : ∀ k ∈ ["netbsd", "rc", "env", "blk", "mount", "net"],
      p1.filter (fun p => decide (p.1 = k)) = p2.filter (fun p => decide (p.1 = k))) :
    ∀ s, (rumprun_config bins mount_ok (some (.jobject p1)) s).2 =
      (rumprun_config bins mount_ok (some (.jobject p2)) s).2 := by
  have _hp := hperm
  have htab : ∀ he ∈ handlers_root bins mount_ok,
      p1.filter (fun p => decide (p.1 = he.1)) =
        p2.filter (fun p => decide (p.1 = he.1)) := by
    intro he hhe
    simp only [handlers_root, List.mem_cons, List.not_mem_nil, or_false] at hhe
    rcases hhe with rfl | rfl | rfl | rfl | rfl | rfl
    · exact hf "netbsd" (by simp)
    · exact hf "rc" (by simp)
    · exact hf "env" (by simp)
    · exact hf "blk" (by simp)
    · exact hf "mount" (by simp)
    · exact hf "net" (by simp)
  intro s
  unfold rumprun_config
  exact sndEq_mbind _ (handle_object_sndEq _ p1 p2 _ htab) s

/-- Witness for C1: a document with a duplicated `env` key, and the same
document with `netbsd` moved in front of the first `env`, interpret to
the same outcome (both `env` occurrences applied, in document order,
after the sysctl assignment). -/
theorem C1_witness :
    (rumprun_config ["hello"] (fun _ _ => true) (some (.jobject
      [("env", .jobject [("A", .jstring "1")]),
       ("netbsd", .jobject [("sysctl", .jobject [("x", .jtrue)])]),
       ("env", .jobject [("B", .jstring "2")])])) st0).2 =
    (rumprun_config ["hello"] (fun _ _ => true) (some (.jobject
      [("netbsd", .jobject [("sysctl", .jobject [("x", .jtrue)])]),
       ("env", .jobject [("A", .jstring "1")]),
       ("env", .jobject [("B", .jstring "2")])])) st0).2 :=
  C1_root_dispatch_table_order ["hello"] (fun _ _ => true) _ _
    (List.Perm.swap _ _ _)
    (by intro k hk; fin_cases hk <;> rfl) st0

/-! ## Plan invariance of the non-rc handlers -/

/-- A computation that never appends to (or otherwise changes) the boot
plan on success. -/
def PlanInv {α : Type} (x : M α) : Prop :=
  ∀ s a s', (x s).2 = .ok (a, s') → s'.plan = s.plan

theorem planInv_mpure {α : Type} (a : α) : PlanInv (mpure a) := by
  intro s b s' h
  simp [mpure] at h
  rw [← h.2]

theorem planInv_mthrow {α : Type} (m : String) : PlanInv (mthrow (α := α) m) := by
  intro s b s' h
  simp [mthrow] at h

theorem planInv_mwarn (m : String) : PlanInv (mwarn m) := by
  intro s b s' h
  simp [mwarn] at h
  rw [← h]

theorem planInv_getSt : PlanInv getSt := by
  intro s b s' h
  simp [getSt] at h
  rw [← h.2]

theorem planInv_modSt (f : St → St) (hf : ∀ s, (f s).plan = s.plan) :
    PlanInv (modSt f) := by
  intro s b s' h
  simp [modSt] at h
  rw [← h]
  exact hf s

theorem planInv_emit (a : Action) : PlanInv (emit a) :=
  planInv_modSt _ (fun _ => rfl)

theorem planInv_mkdirCall (p : String) : PlanInv (mkdirCall p) := by
  refine planInv_modSt _ (fun s => ?_)
  by_cases h : p ∈ s.dirs <;> simp [h]

theorem planInv_jexpect (t : JKind) (v : JValue) (loc : String) :
    PlanInv (jexpect t v loc) := by
  unfold jexpect
  by_cases h : jkind v = t
  · rw [if_pos h]; exact planInv_mpure ()
  · rw [if_neg h]; exact planInv_mthrow _

theorem planInv_mbind {α β : Type} {x : M α} {f : α → M β}
    (hx : PlanInv x) (hf : ∀ a, PlanInv (f a)) : PlanInv (mbind x f) := by
  intro s b s' h
  unfold mbind at h
  rcases hxs : x s with ⟨w1, e1⟩
  rw [hxs] at h
  cases e1 with
  | error e0 => simp at h
  | ok as1 =>
    rcases as1 with ⟨a, s1⟩
    simp only at h
    have h2 : (f a s1).2 = .ok (b, s') := h
    calc s'.plan = s1.plan := hf a s1 b s' h2
      _ = s.plan := hx s a s1 (by rw [hxs])

theorem planInv_mfor {α : Type} (l : List α) (f : α → M Unit)
    (h : ∀ a ∈ l, PlanInv (f a)) : PlanInv (mfor l f) := by
  induction l with
  | nil => exact planInv_mpure ()
  | cons a t ih =>
    rw [mfor_cons]
    exact planInv_mbind (h a (List.mem_cons_self a t))
      (fun _ => ih (fun b hb => h b (List.mem_cons_of_mem a hb)))

theorem planInv_ite {α : Type} (c : Prop) [Decidable c] {x y : M α}
    (hx : PlanInv x) (hy : PlanInv y) : PlanInv (if c then x else y) := by
  by_cases h : c
  · rw [if_pos h]; exact hx
  · rw [if_neg h]; exact hy

theorem planInv_handle_object (h : HandlerTable)
    (hh : ∀ he ∈ h, ∀ nm v, PlanInv (he.2 nm v)) (v : JValue) (loc : String) :
    PlanInv (handle_object h v loc) := by
  unfold handle_object
  refine planInv_mbind (planInv_jexpect _ _ _) (fun _ => ?_)
  refine planInv_mbind ?_ (fun _ => ?_)
  · unfold handle_object_pass1
    refine planInv_mfor _ _ (fun p _ => ?_)
    cases findHandler h p.1 with
    | none => exact planInv_mwarn _
    | some hf => exact planInv_mpure ()
  · unfold handle_object_pass2
    refine planInv_mfor _ _ (fun he hhe => ?_)
    refine planInv_mfor _ _ (fun p _ => ?_)
    exact planInv_ite _ (hh he hhe p.1 p.2) (planInv_mpure ())

theorem planInv_handle_sysctl (nm : String) (v : JValue) :
    PlanInv (handle_sysctl nm v) := by
  unfold handle_sysctl
  refine planInv_mbind (planInv_jexpect _ _ _) (fun _ => ?_)
  cases sysctl_parse (jpairs v) none with
  | error e => exact planInv_mthrow e
  | ok sc => exact planInv_mfor _ _ (fun kv _ => planInv_emit _)

theorem planInv_handle_netbsd (nm : String) (v : JValue) :
    PlanInv (handle_netbsd nm v) := by
  unfold handle_netbsd
  refine planInv_handle_object _ ?_ v _
  intro he hhe nm2 v2
  simp only [handlers_netbsd, List.mem_cons, List.not_mem_nil, or_false] at hhe
  subst hhe
  exact planInv_handle_sysctl nm2 v2

theorem planInv_handle_env (nm : String) (v : JValue) :
    PlanInv (handle_env nm v) := by
  unfold handle_env
  refine planInv_mbind (planInv_jexpect _ _ _) (fun _ => ?_)
  refine planInv_mfor _ _ (fun p _ => ?_)
  exact planInv_mbind (planInv_jexpect _ _ _) (fun _ => planInv_emit _)

theorem planInv_config_ipv4 (i m : String) (c : Option String) :
    PlanInv (config_ipv4 i m c) := by
  unfold config_ipv4
  refine planInv_ite _ (planInv_emit _) (planInv_ite _ ?_ (planInv_mthrow _))
  cases c with
  | none => exact planInv_mthrow _
  | some cc =>
    dsimp only
    cases strchr_split cc with
    | none => exact planInv_mthrow _
    | some am => rcases am with ⟨a1, a2⟩; exact planInv_emit _

theorem planInv_config_ipv6 (i m : String) (c : Option String) :
    PlanInv (config_ipv6 i m c) := by
  unfold config_ipv6
  refine planInv_ite _ (planInv_emit _) (planInv_ite _ ?_ (planInv_mthrow _))
  cases c with
  | none => exact planInv_mthrow _
  | some cc =>
    dsimp only
    cases strchr_split cc with
    | none => exact planInv_mthrow _
    | some am => rcases am with ⟨a1, a2⟩; exact planInv_emit _

theorem planInv_addr_scan (l : List (String × JValue)) :
    ∀ acc i, PlanInv (addr_scan l acc i) := by
  induction l with
  | nil => intro acc i; exact planInv_mpure _
  | cons p t ih =>
    intro acc i
    rcases p with ⟨n, w⟩
    unfold addr_scan
    refine planInv_ite _ (ih _ _) (planInv_ite _ (ih _ _)
      (planInv_ite _ (ih _ _) ?_))
    exact planInv_mbind (planInv_mwarn _) (fun _ => ih _ _)

theorem planInv_handle_addr (i : String) (a : JValue) :
    PlanInv (handle_addr i a) := by
  unfold handle_addr
  refine planInv_mbind (planInv_jexpect _ _ _) (fun _ => ?_)
  refine planInv_mbind (planInv_addr_scan _ _ _) (fun acc => ?_)
  cases acc.type with
  | none => cases acc.method <;> exact planInv_mthrow _
  | some ty =>
    cases acc.method with
    | none => exact planInv_mthrow _
    | some me =>
      exact planInv_ite _ (planInv_config_ipv4 _ _ _)
        (planInv_ite _ (planInv_config_ipv6 _ _ _) (planInv_mthrow _))

theorem planInv_if_scan (l : List (String × JValue)) :
    ∀ acc i, PlanInv (if_scan l acc i) := by
  induction l with
  | nil => intro acc i; exact planInv_mpure _
  | cons p t ih =>
    intro acc i
    rcases p with ⟨n, w⟩
    unfold if_scan
    refine planInv_ite _ (planInv_ite _ (ih _ _) (planInv_mthrow _))
      (planInv_ite _ ?_ ?_)
    · exact planInv_mbind (planInv_jexpect _ _ _) (fun _ => ih _ _)
    · exact planInv_mbind (planInv_mwarn _) (fun _ => ih _ _)

theorem planInv_handle_interface (i : String) (v : JValue) :
    PlanInv (handle_interface i v) := by
  unfold handle_interface
  refine planInv_mbind (planInv_jexpect _ _ _) (fun _ => ?_)
  refine planInv_mbind (planInv_if_scan _ _ _) (fun acc => ?_)
  refine planInv_mbind ?_ (fun _ => ?_)
  · cases hcr : acc.create with
    | none => exact planInv_mpure ()
    | some cv => cases cv <;> first | exact planInv_emit _ | exact planInv_mpure ()
  · cases acc.addrs with
    | none => exact planInv_mwarn _
    | some l => exact planInv_mfor _ _ (fun a _ => planInv_handle_addr _ _)

theorem planInv_handle_interfaces (nm : String) (v : JValue) :
    PlanInv (handle_interfaces nm v) := by
  unfold handle_interfaces
  refine planInv_mbind (planInv_jexpect _ _ _) (fun _ => ?_)
  exact planInv_mfor _ _ (fun p _ => planInv_handle_interface _ _)

theorem planInv_gw_scan (l : List (String × JValue)) :
    ∀ acc, PlanInv (gw_scan l acc) := by
  induction l with
  | nil => intro acc; exact planInv_mpure _
  | cons p t ih =>
    intro acc
    rcases p with ⟨n, w⟩
    unfold gw_scan
    refine planInv_ite _ (ih _) (planInv_ite _ (ih _) ?_)
    exact planInv_mbind (planInv_mwarn _) (fun _ => ih _)

theorem planInv_handle_gateways (nm : String) (v : JValue) :
    PlanInv (handle_gateways nm v) := by
  unfold handle_gateways
  refine planInv_mbind (planInv_jexpect _ _ _) (fun _ => ?_)
  refine planInv_mfor _ _ (fun a _ => ?_)
  refine planInv_mbind (planInv_jexpect _ _ _) (fun _ => ?_)
  refine planInv_mbind (planInv_gw_scan _ _) (fun acc => ?_)
  cases acc.type with
  | none => cases acc.addr <;> exact planInv_mthrow _
  | some ty =>
    cases acc.addr with
    | none => exact planInv_mthrow _
    | some ad =>
      exact planInv_ite _ (planInv_emit _)
        (planInv_ite _ (planInv_emit _) (planInv_mthrow _))

theorem planInv_dns_scan (l : List (String × JValue)) :
    ∀ acc, PlanInv (dns_scan l acc) := by
  induction l with
  | nil => intro acc; exact planInv_mpure _
  | cons p t ih =>
    intro acc
    rcases p with ⟨n, w⟩
    unfold dns_scan
    refine planInv_ite _ ?_ (planInv_ite _ ?_ ?_)
    · exact planInv_mbind (planInv_jexpect _ _ _) (fun _ => ih _)
    · exact planInv_mbind (planInv_jexpect _ _ _) (fun _ => ih _)
    · exact planInv_mbind (planInv_mwarn _) (fun _ => ih _)

theorem planInv_dns_ns_loop (maxlen : Nat) (l : List JValue) :
    ∀ n, PlanInv (dns_ns_loop maxlen l n) := by
  induction l with
  | nil => intro n; exact planInv_mpure _
  | cons a t ih =>
    intro n
    unfold dns_ns_loop
    refine planInv_mbind (planInv_jexpect _ _ _) (fun _ => ?_)
    refine planInv_ite _ (planInv_mthrow _) (planInv_ite _ (planInv_mthrow _) ?_)
    exact planInv_mbind (planInv_emit _) (fun _ => ih _)

theorem planInv_dns_search_loop (l : List JValue) :
    ∀ n mlen buf, PlanInv (dns_search_loop l n mlen buf) := by
  induction l with
  | nil => intro n mlen buf; exact planInv_mpure _
  | cons a t ih =>
    intro n mlen buf
    unfold dns_search_loop
    refine planInv_mbind (planInv_jexpect _ _ _) (fun _ => ?_)
    refine planInv_ite _ (planInv_mthrow _) (planInv_ite _ (planInv_mthrow _) ?_)
    exact ih _ _ _

theorem planInv_handle_dns (nm : String) (v : JValue) :
    PlanInv (handle_dns nm v) := by
  unfold handle_dns
  refine planInv_mbind (planInv_jexpect _ _ _) (fun _ => ?_)
  refine planInv_mbind (planInv_dns_scan _ _) (fun acc => ?_)
  have hrest : PlanInv (mbind (mkdirCall "/etc") (fun _ =>
      mbind (emit .resolvOpen) (fun _ =>
        mbind (match acc.nameservers with
               | none => mpure ()
               | some l => dns_ns_loop dns_maxlen l 0) (fun _ =>
          match acc.search with
          | none => mpure ()
          | some l =>
            mbind (dns_search_loop l 0 dns_maxlen "") (fun buf =>
              if l.isEmpty then mpure () else emit (.resolvWrite buf)))))) := by
    refine planInv_mbind (planInv_mkdirCall _) (fun _ => ?_)
    refine planInv_mbind (planInv_emit _) (fun _ => ?_)
    refine planInv_mbind ?_ (fun _ => ?_)
    · cases acc.nameservers with
      | none => exact planInv_mpure ()
      | some l => exact planInv_dns_ns_loop _ _ _
    · cases acc.search with
      | none => exact planInv_mpure ()
      | some l =>
        refine planInv_mbind (planInv_dns_search_loop _ _ _ _) (fun buf => ?_)
        exact planInv_ite _ (planInv_mpure ()) (planInv_emit _)
  cases hns : acc.nameservers with
  | none =>
    cases hs : acc.search with
    | none => exact planInv_mpure ()
    | some l =>
      rw [hns, hs] at hrest
      exact hrest
  | some l =>
    cases hs : acc.search <;> rw [hns, hs] at hrest <;> exact hrest

theorem planInv_handle_net (nm : String) (v : JValue) :
    PlanInv (handle_net nm v) := by
  unfold handle_net
  refine planInv_handle_object _ ?_ v _
  intro he hhe nm2 v2
  simp only [handlers_net, List.mem_cons, List.not_mem_nil, or_false] at hhe
  rcases hhe with rfl | rfl | rfl
  · exact planInv_handle_interfaces nm2 v2
  · exact planInv_handle_gateways nm2 v2
  · exact planInv_handle_dns nm2 v2

theorem planInv_configetfs (dev hostpath : String) (hard : Bool) :
    PlanInv (configetfs dev hostpath hard) :=
  planInv_emit _

theorem planInv_configvnd (dev path : String) : PlanInv (configvnd dev path) := by
  unfold configvnd
  cases sscanf_vnd dev with
  | none => exact planInv_mthrow _
  | some u => exact planInv_emit _

theorem planInv_blk_scan (l : List (String × JValue)) :
    ∀ acc dev, PlanInv (blk_scan l acc dev) := by
  induction l with
  | nil => intro acc dev; exact planInv_mpure _
  | cons p t ih =>
    intro acc dev
    rcases p with ⟨n, w⟩
    unfold blk_scan
    refine planInv_ite _ ?_ (planInv_ite _ ?_ (planInv_mthrow _)) <;>
      exact planInv_mbind (planInv_jexpect _ _ _) (fun _ => ih _ _)

theorem planInv_handle_blk (dev : String) (v : JValue) :
    PlanInv (handle_blk dev v) := by
  unfold handle_blk
  refine planInv_mbind (planInv_jexpect _ _ _) (fun _ => ?_)
  refine planInv_mbind (planInv_blk_scan _ _ _) (fun acc => ?_)
  cases acc.type with
  | none => cases acc.path <;> exact planInv_mthrow _
  | some ty =>
    cases acc.path with
    | none => exact planInv_mthrow _
    | some pa =>
      exact planInv_ite _ (planInv_configetfs _ _ _)
        (planInv_ite _ (planInv_configvnd _ _) (planInv_mthrow _))

theorem planInv_handle_blks (nm : String) (v : JValue) :
    PlanInv (handle_blks nm v) := by
  unfold handle_blks
  refine planInv_mbind (planInv_jexpect _ _ _) (fun _ => ?_)
  exact planInv_mfor _ _ (fun p _ => planInv_handle_blk _ _)

theorem planInv_mount_blk (mount_ok : String → String → Bool)
    (dev : Option String) (mp : String) (o : Option JValue) :
    PlanInv (mount_blk mount_ok dev mp o) := by
  unfold mount_blk
  cases dev with
  | none => exact planInv_mpure _
  | some d =>
    dsimp only
    refine planInv_ite _ ?_ (planInv_ite _ ?_ (planInv_ite _ ?_ (planInv_mpure _))) <;>
      exact planInv_mbind (planInv_emit _) (fun _ => planInv_mpure _)

theorem planInv_mount_kernfs (mount_ok : String → String → Bool)
    (dev : Option String) (mp : String) (o : Option JValue) :
    PlanInv (mount_kernfs mount_ok dev mp o) := by
  unfold mount_kernfs
  refine planInv_ite _ ?_ (planInv_mpure _)
  exact planInv_mbind (planInv_emit _) (fun _ => planInv_mpure _)

theorem planInv_tmpfs_options_scan (l : List (String × JValue)) :
    ∀ acc, PlanInv (tmpfs_options_scan l acc) := by
  induction l with
  | nil => intro acc; exact planInv_mpure _
  | cons p t ih =>
    intro acc
    rcases p with ⟨n, w⟩
    unfold tmpfs_options_scan
    refine planInv_ite _ ?_ (planInv_mthrow _)
    exact planInv_mbind (planInv_jexpect _ _ _) (fun _ => ih _)

theorem planInv_mount_tmpfs (mount_ok : String → String → Bool)
    (dev : Option String) (mp : String) (o : Option JValue) :
    PlanInv (mount_tmpfs mount_ok dev mp o) := by
  unfold mount_tmpfs
  refine planInv_mbind ?_ (fun opt_size => ?_)
  · cases o with
    | none => exact planInv_mpure _
    | some oo =>
      exact planInv_mbind (planInv_jexpect _ _ _)
        (fun _ => planInv_tmpfs_options_scan _ _)
  · dsimp only
    cases dehumanize_number (match opt_size with | none => "1M" | some x => x) with
    | none => exact planInv_mthrow _
    | some size =>
      refine planInv_ite _ ?_ (planInv_mpure _)
      exact planInv_mbind (planInv_emit _) (fun _ => planInv_mpure _)

theorem planInv_mkdirhier (path : String) : PlanInv (mkdirhier path) := by
  unfold mkdirhier
  exact planInv_mfor _ _ (fun cs _ => planInv_mkdirCall _)

theorem planInv_run_mounters
    (ms : List (String × (Option String → String → Option JValue → M Bool)))
    (hms : ∀ e ∈ ms, ∀ p mp o, PlanInv (e.2 p mp o)) :
    ∀ src p mp o, PlanInv (run_mounters ms src p mp o) := by
  induction ms with
  | nil => intro src p mp o; exact planInv_mthrow _
  | cons e t ih =>
    intro src p mp o
    rcases e with ⟨nm, f⟩
    unfold run_mounters
    refine planInv_ite _ ?_
      (ih (fun e2 he2 => hms e2 (List.mem_cons_of_mem _ he2)) _ _ _ _)
    refine planInv_mbind (hms (nm, f) (List.mem_cons_self _ _) p mp o)
      (fun ok => ?_)
    exact planInv_ite _ (planInv_mpure _) (planInv_mthrow _)

theorem planInv_mount_scan (l : List (String × JValue)) :
    ∀ acc mp, PlanInv (mount_scan l acc mp) := by
  induction l with
  | nil => intro acc mp; exact planInv_mpure _
  | cons p t ih =>
    intro acc mp
    rcases p with ⟨n, w⟩
    unfold mount_scan
    refine planInv_ite _ ?_ (planInv_ite _ ?_ (planInv_ite _ ?_ (planInv_mthrow _))) <;>
      exact planInv_mbind (planInv_jexpect _ _ _) (fun _ => ih _ _)

theorem planInv_handle_mount (mount_ok : String → String → Bool)
    (mp : String) (v : JValue) : PlanInv (handle_mount mount_ok mp v) := by
  unfold handle_mount
  refine planInv_mbind (planInv_jexpect _ _ _) (fun _ => ?_)
  refine planInv_mbind (planInv_mount_scan _ _ _) (fun acc => ?_)
  cases acc.source with
    | none => exact planInv_mthrow _
    | some src =>
      refine planInv_mbind (planInv_mkdirhier _) (fun _ => ?_)
      apply planInv_run_mounters
      intro e he p2 mp2 o2
      simp only [mounters, List.mem_cons, List.not_mem_nil, or_false] at he
      rcases he with rfl | rfl | rfl
      · exact planInv_mount_blk mount_ok p2 mp2 o2
      · exact planInv_mount_kernfs mount_ok p2 mp2 o2
      · exact planInv_mount_tmpfs mount_ok p2 mp2 o2

theorem planInv_handle_mounts (mount_ok : String → String → Bool)
    (nm : String) (v : JValue) : PlanInv (handle_mounts mount_ok nm v) := by
  unfold handle_mounts
  refine planInv_mbind (planInv_jexpect _ _ _) (fun _ => ?_)
  exact planInv_mfor _ _ (fun p _ => planInv_handle_mount mount_ok _ _)

/-! ## The registry fallback (`handle_rc_dummy`) -/

theorem rc_dummy_entries_length (l : List String) :
    ∀ i, (rc_dummy_entries i l).length = l.length := by
  induction l with
  | nil => intro i; rfl
  | cons b t ih => intro i; simp [rc_dummy_entries, ih]

theorem rc_dummy_go_eq (l : List String) :
    ∀ i s, rc_dummy_go i l s =
      ([], .ok ((), { s with plan := s.plan ++ rc_dummy_entries i l })) := by
  induction l with
  | nil => intro i s; simp [rc_dummy_go, rc_dummy_entries, mpure]
  | cons b t ih =>
    intro i s
    show (mbind (modSt _) _) s = _
    rw [mbind]
    simp only [modSt, ih, rc_dummy_entries, List.append_assoc]
    rfl

theorem handle_rc_dummy_eq (bins : List String) (s : St) :
    handle_rc_dummy bins s =
      ([], .ok (bins.length, { s with plan := s.plan ++ rc_dummy_entries 0 bins })) := by
  show (mbind (rc_dummy_go 0 bins) _) s = _
  rw [mbind, rc_dummy_go_eq]
  rfl

/-- Holds vacuously of a fatal outcome; on success the result and state
satisfy `Q`. -/
def OkImp {β : Type} (Q : β → St → Prop) :
    Except (String × St) (β × St) → Prop
  | .error _ => True
  | .ok (b, s) => Q b s

/-- A fatal outcome: the result is not a success (the `Except` is
`error`). -/
def isError {α : Type} (r : List String × Except (String × St) (α × St)) :
    Prop :=
  OkImp (fun _ _ => False) r.2

theorem mthrow_ne_ok {α : Type} (m : String) (s : St) (w : List String)
    (a : α) (s' : St) : mthrow m s ≠ (w, .ok (a, s')) := by
  simp [mthrow]

theorem mpure_ok_elim {α : Type} {a : α} {s : St} {w : List String} {b : α}
    {s' : St} (h : mpure a s = (w, .ok (b, s'))) :
    a = b ∧ s = s' ∧ w = [] := by
  simp [mpure] at h
  exact ⟨h.2.1, h.2.2, h.1⟩

/-- C2: on every successful interpretation (any document or none, any
registry, any mount oracle), the final boot plan is non-empty and its
last entry's run mode is not pipe; consequently a document whose `rc`
list leaves a pipe-mode entry last can never pass `rumprun_config` —
shown at a document whose only rc entry has runmode "|". -/
theorem C2_last_entry_not_pipe :
    (∀ (bins : List String) (mount_ok : String → String → Bool)
        (root : Option JValue) (s : St) (w : List String) (s' : St),
      rumprun_config bins mount_ok root s = (w, .ok ((), s')) →
      s'.plan ≠ [] ∧
        ∀ e, s'.plan.getLast? = some e → e.flags &&& RUMPRUN_EXEC_PIPE = 0) ∧
    isError (rumprun_config ["hello"] (fun _ _ => true) (some (.jobject
      [("rc", .jarray [.jobject [("bin", .jstring "hello"),
                                 ("runmode", .jstring "|")]])])) st0) := by
  refine ⟨?_, trivial⟩
  intro bins mount_ok root s w s' h
  unfold rumprun_config at h
  obtain ⟨w1, u1, sA, w2, _hA, hrest, _⟩ := mbind_ok_elim h
  obtain ⟨w3, s1, sB, w4, hget, hrest2, _⟩ := mbind_ok_elim hrest
  have hg : w3 = [] ∧ s1 = sA ∧ sB = sA := by
    simp [getSt] at hget
    exact ⟨hget.1, hget.2.1.symm, hget.2.2.symm⟩
  obtain ⟨_, rfl, rfl⟩ := hg
  obtain ⟨w5, u2, sD0, w6, hB, hrest3, _⟩ := mbind_ok_elim hrest2
  obtain ⟨w7, s2v, sE0, w8, hget2, hC, _⟩ := mbind_ok_elim hrest3
  have hg2 : s2v = sD0 ∧ sE0 = sD0 := by
    simp [getSt] at hget2
    exact ⟨hget2.2.1.symm, hget2.2.2.symm⟩
  rw [hg2.1, hg2.2] at hC
  -- the plan at the final check is non-empty
  have hCne : sD0.plan ≠ [] := by
    by_cases hpe : sB.plan.isEmpty
    · rw [if_pos hpe] at hB
      obtain ⟨wd, nbins, sE, wd2, hdummy, hif, _⟩ := mbind_ok_elim hB
      rw [handle_rc_dummy_eq] at hdummy
      have hd1 : nbins = bins.length ∧ sE =
          { sB with plan := sB.plan ++ rc_dummy_entries 0 bins } := by
        have hd0 := congrArg Prod.snd hdummy
        simp only at hd0
        cases hd0
        exact ⟨rfl, rfl⟩
      obtain ⟨rfl, rfl⟩ := hd1
      by_cases hz : bins.length = 0
      · rw [if_pos hz] at hif
        exact absurd hif (mthrow_ne_ok _ _ _ _ _)
      · rw [if_neg hz] at hif
        obtain ⟨_, hsc, _⟩ := mpure_ok_elim hif
        rw [← hsc]
        intro hcon
        have := congrArg List.length hcon
        simp [rc_dummy_entries_length] at this
        exact hz (by simp [this.2])
    · rw [if_neg hpe] at hB
      obtain ⟨_, hsc, _⟩ := mpure_ok_elim hB
      rw [← hsc]
      intro hcon
      rw [hcon] at hpe
      exact hpe rfl
  rcases hlast : sD0.plan.getLast? with _ | rre
  · exact absurd (List.getLast?_eq_none_iff.mp hlast) hCne
  · rw [hlast] at hC
    dsimp only at hC
    by_cases hp : rre.flags &&& RUMPRUN_EXEC_PIPE ≠ 0
    · rw [if_pos hp] at hC
      exact absurd hC (mthrow_ne_ok _ _ _ _ _)
    · rw [if_neg hp] at hC
      obtain ⟨_, hsc, _⟩ := mpure_ok_elim hC
      rw [← hsc]
      refine ⟨hCne, fun e he => ?_⟩
      rw [hlast] at he
      cases he
      exact Nat.eq_zero_of_not_pos (fun hpos => hp (Nat.pos_iff_ne_zero.mp hpos))

/-- Witness for C2: interpreting with no document and a one-program
registry succeeds, and the resulting plan is non-empty with a last entry
that does not pipe. -/
theorem C2_witness :
    ((rumprun_config ["hello"] (fun _ _ => true) none st0).2 =
      .ok ((), { plan := [{ main := 0, argv := ["hello"], flags := 0,
                            workdir := none, sc := [] }],
                 dirs := [], acts := [] })) ∧
    ({ plan := [{ main := 0, argv := ["hello"], flags := 0,
                  workdir := none, sc := [] }],
       dirs := [], acts := [] } : St).plan ≠ [] := by
  constructor
  · rfl
  · exact (C2_last_entry_not_pipe.1 ["hello"] (fun _ _ => true) none st0
      ["could not find start of json.  no config?"] _ rfl).1

/-- C4: when the top-level `rc` key is entirely absent, a successful
interpretation leaves exactly one foreground (flags = 0) entry per
registry program in the boot plan, in registry order, each with argument
vector `[binname]` (that is the shape of `rc_dummy_entries`); success
moreover forces the registry to be non-empty, and an empty registry is
indeed the fatal internal error, shown at the empty document. -/
theorem C4_rc_absent_registry_fallback :
    (∀ (bins : List String) (mount_ok : String → String → Bool)
        (pairs : List (String × JValue)),
      (∀ p ∈ pairs, p.1 ≠ "rc") → ∀ s : St, s.plan = [] →
      ∀ (w : List String) (s' : St),
      rumprun_config bins mount_ok (some (.jobject pairs)) s = (w, .ok ((), s')) →
      s'.plan = rc_dummy_entries 0 bins ∧ bins ≠ []) ∧
    isError (rumprun_config [] (fun _ _ => true) (some (.jobject [])) st0) := by
  refine ⟨?_, trivial⟩
  intro bins mount_ok pairs hrc s hplan w s' h
  unfold rumprun_config at h
  obtain ⟨w1, u1, sA, w2, hA, hrest, _⟩ := mbind_ok_elim h
  dsimp only at hA
  -- the dispatch never touches the plan: the rc slot scans no pairs
  have hPI : PlanInv
      (handle_object (handlers_root bins mount_ok) (.jobject pairs)
        "rumprun_config") := by
    unfold handle_object
    refine planInv_mbind (planInv_jexpect _ _ _) (fun _ => ?_)
    refine planInv_mbind ?_ (fun _ => ?_)
    · unfold handle_object_pass1
      refine planInv_mfor _ _ (fun p _ => ?_)
      cases findHandler (handlers_root bins mount_ok) p.1 with
      | none => exact planInv_mwarn _
      | some hf => exact planInv_mpure ()
    · rw [handle_object_pass2_eq]
      refine planInv_mfor _ _ (fun he hhe => ?_)
      simp only [handlers_root, List.mem_cons, List.not_mem_nil, or_false] at hhe
      rcases hhe with rfl | rfl | rfl | rfl | rfl | rfl
      · exact planInv_mfor _ _ (fun p _ => planInv_handle_netbsd p.1 p.2)
      · refine planInv_mfor _ _ (fun p hp => ?_)
        rcases List.mem_filter.mp hp with ⟨hmem, hdec⟩
        exact absurd (of_decide_eq_true hdec) (hrc p hmem)
      · exact planInv_mfor _ _ (fun p _ => planInv_handle_env p.1 p.2)
      · exact planInv_mfor _ _ (fun p _ => planInv_handle_blks p.1 p.2)
      · exact planInv_mfor _ _ (fun p _ => planInv_handle_mounts mount_ok p.1 p.2)
      · exact planInv_mfor _ _ (fun p _ => planInv_handle_net p.1 p.2)
  have hAplan : sA.plan = s.plan := hPI s u1 sA (by rw [hA])
  obtain ⟨w3, s1, sB, w4, hget, hrest2, _⟩ := mbind_ok_elim hrest
  have hg : s1 = sA ∧ sB = sA := by
    simp [getSt] at hget
    exact ⟨hget.2.1.symm, hget.2.2.symm⟩
  rw [hg.1, hg.2] at hrest2
  obtain ⟨w5, u2, sD0, w6, hB, hrest3, _⟩ := mbind_ok_elim hrest2
  have hempty : sA.plan.isEmpty = true := by rw [hAplan, hplan]; rfl
  rw [if_pos hempty] at hB
  obtain ⟨wd, nbins, sE, wd2, hdummy, hif, _⟩ := mbind_ok_elim hB
  rw [handle_rc_dummy_eq] at hdummy
  have hd1 : nbins = bins.length ∧ sE =
      { sA with plan := sA.plan ++ rc_dummy_entries 0 bins } := by
    have hd0 := congrArg Prod.snd hdummy
    simp only at hd0
    cases hd0
    exact ⟨rfl, rfl⟩
  obtain ⟨rfl, rfl⟩ := hd1
  by_cases hz : bins.length = 0
  · rw [if_pos hz] at hif
    exact absurd hif (mthrow_ne_ok _ _ _ _ _)
  · rw [if_neg hz] at hif
    obtain ⟨_, hsc, _⟩ := mpure_ok_elim hif
    obtain ⟨w7, s2v, sE0, w8, hget2, hC, _⟩ := mbind_ok_elim hrest3
    have hg2 : s2v = sD0 ∧ sE0 = sD0 := by
      simp [getSt] at hget2
      exact ⟨hget2.2.1.symm, hget2.2.2.symm⟩
    rw [hg2.1, hg2.2] at hC
    have hpl : s'.plan = sD0.plan := by
      have hPI : PlanInv (match sD0.plan.getLast? with
          | some rre =>
            if rre.flags &&& RUMPRUN_EXEC_PIPE ≠ 0 then
              mthrow "rumprun_config: last rc entry may not output to pipe"
            else mpure ()
          | none => mpure ()) := by
        cases sD0.plan.getLast? with
        | none => exact planInv_mpure ()
        | some rre => exact planInv_ite _ (planInv_mthrow _) (planInv_mpure ())
      exact hPI sD0 () s' (by rw [hC])
    refine ⟨?_, fun hb => hz (by rw [hb]; rfl)⟩
    rw [hpl, ← hsc]
    simp [hAplan, hplan]

/-- Witness for C4: a document carrying only an (empty) `env` object, no
`rc`, interpreted with a two-program registry, yields the two-entry
foreground registry plan. -/
theorem C4_witness :
    ({ plan := rc_dummy_entries 0 ["a", "b"], dirs := [], acts := [] } : St).plan =
      rc_dummy_entries 0 ["a", "b"] ∧ (["a", "b"] : List String) ≠ [] :=
  C4_rc_absent_registry_fallback.1 ["a", "b"] (fun _ _ => true)
    [("env", .jobject [])]
    (by intro p hp; simp at hp; rw [hp]; decide)
    st0 rfl []
    { plan := rc_dummy_entries 0 ["a", "b"], dirs := [], acts := [] } rfl

/-! ## The sysctl translator's contract -/

theorem sysctl_parse_check_ok (pairs : List (String × JValue))
    (hall : ∀ p ∈ pairs, jkind p.2 = .ktrue ∨ jkind p.2 = .kfalse ∨
      jkind p.2 = .kstring ∨ jkind p.2 = .knumber) :
    sysctl_parse_check pairs = .ok () := by
  induction pairs with
  | nil => rfl
  | cons p t ih =>
    rcases p with ⟨n, w⟩
    unfold sysctl_parse_check
    rw [if_pos]
    · exact ih (fun q hq => hall q (List.mem_cons_of_mem _ hq))
    · have := hall (n, w) (List.mem_cons_self _ _)
      tauto

theorem sysctl_parse_check_error (pairs : List (String × JValue))
    (hbad : ∃ p ∈ pairs, jkind p.2 ≠ .ktrue ∧ jkind p.2 ≠ .kfalse ∧
      jkind p.2 ≠ .kstring ∧ jkind p.2 ≠ .knumber) :
    ∃ e, sysctl_parse_check pairs = .error e := by
  induction pairs with
  | nil => rcases hbad with ⟨p, hp, _⟩; cases hp
  | cons p t ih =>
    rcases p with ⟨n, w⟩
    unfold sysctl_parse_check
    by_cases hgood : jkind w = .ktrue ∨ jkind w = .kfalse ∨ jkind w = .kstring ∨
        jkind w = .knumber
    · rw [if_pos hgood]
      refine ih ?_
      rcases hbad with ⟨q, hq, hqbad⟩
      rcases List.mem_cons.mp hq with rfl | hqt
      · exact absurd hgood (by tauto)
      · exact ⟨q, hqt, hqbad⟩
    · rw [if_neg hgood]
      exact ⟨_, rfl⟩

/-- C3 counterexample: a number-valued pair is NOT rejected by
`sysctl_parse` — it translates to an assignment carrying the number's
text — although a number is neither a boolean nor a string
(`jtypestr` even prints the kind as "UNKNOWN"). -/
theorem C3_counterexample :
    sysctl_parse [("a", JValue.jnumber "5")] none = .ok [("a", "5")] ∧
      jkind (JValue.jnumber "5") ≠ .ktrue ∧
      jkind (JValue.jnumber "5") ≠ .kfalse ∧
      jkind (JValue.jnumber "5") ≠ .kstring :=
  ⟨rfl, by decide, by decide, by decide⟩

/-- C3 (amended): `sysctl_parse` rejects fatally exactly when some value
is of a kind other than boolean, string or number; otherwise it yields
one assignment per pair in enumeration order, with true ↦ "1",
false ↦ "0", a string or number copied verbatim, and the key prefixed
(`pfx ++ "." ++ key`) exactly when a prefix is supplied.  In particular
`{"a":"1","b":true}` yields `[("a","1"),("b","1")]` in that order. -/
theorem C3_sysctl_translation (pairs : List (String × JValue))
    (pfx : Option String) :
    ((∃ p ∈ pairs, jkind p.2 ≠ .ktrue ∧ jkind p.2 ≠ .kfalse ∧
        jkind p.2 ≠ .kstring ∧ jkind p.2 ≠ .knumber) →
      ∃ e, sysctl_parse pairs pfx = .error e) ∧
    ((∀ p ∈ pairs, jkind p.2 = .ktrue ∨ jkind p.2 = .kfalse ∨
        jkind p.2 = .kstring ∨ jkind p.2 = .knumber) →
      sysctl_parse pairs pfx =
        .ok (pairs.map (fun p => (sysctl_key pfx p.1, sysctl_value p.2)))) ∧
    sysctl_parse [("a", .jstring "1"), ("b", .jtrue)] none =
      .ok [("a", "1"), ("b", "1")] := by
  refine ⟨?_, ?_, rfl⟩
  · intro hbad
    obtain ⟨e, he⟩ := sysctl_parse_check_error pairs hbad
    exact ⟨e, by unfold sysctl_parse; rw [he]⟩
  · intro hall
    unfold sysctl_parse
    rw [sysctl_parse_check_ok pairs hall]

/-- Witness for C3 (amended): two boolean tunables under the
`proc.curproc` prefix. -/
theorem C3_witness :
    sysctl_parse [("x", .jtrue), ("y", .jfalse)] (some "proc.curproc") =
      .ok [("proc.curproc.x", "1"), ("proc.curproc.y", "0")] :=
  (C3_sysctl_translation [("x", .jtrue), ("y", .jfalse)]
    (some "proc.curproc")).2.1
    (by
      intro p hp
      rcases List.mem_cons.mp hp with rfl | hp2
      · exact Or.inl rfl
      rcases List.mem_cons.mp hp2 with rfl | hp3
      · exact Or.inr (Or.inl rfl)
      · cases hp3)

/-! ## The boot plan builder's per-entry contract -/

theorem mbind_mthrow {α β : Type} (m : String) (f : α → M β) :
    mbind (mthrow m) f = mthrow m := by
  funext s
  rfl

/-- Case analysis on the outcome of a bind. -/
theorem mbind_cases {α β : Type} (x : M α) (f : α → M β) (s : St)
    (P : Except (String × St) (β × St) → Prop)
    (herr : ∀ e, P (.error e))
    (hok : ∀ a s1, (x s).2 = .ok (a, s1) → P ((f a s1).2)) :
    P ((mbind x f s).2) := by
  unfold mbind
  rcases hx : x s with ⟨w, e⟩
  cases e with
  | error e0 => exact herr e0
  | ok as1 =>
    rcases as1 with ⟨a, s1⟩
    exact hok a s1 (by rw [hx])

theorem count_argv_strings (ss : List String) :
    count_argv (ss.map JValue.jstring) = mpure ss.length := by
  induction ss with
  | nil => rfl
  | cons a t ih =>
    show mbind (jexpect .kstring (.jstring a) "handle_bin") _ = _
    have hje : jexpect .kstring (.jstring a) "handle_bin" = mpure () := by
      unfold jexpect
      simp [jkind]
    rw [hje, mbind_mpure_left, ih, mbind_mpure_left]
    rfl

theorem count_argv_strings_cons (a : String) (t : List String) :
    count_argv (JValue.jstring a :: List.map JValue.jstring t) =
      mpure (t.length + 1) := by
  simpa using count_argv_strings (a :: t)

theorem map_ustr_jstring (ss : List String) :
    (ss.map JValue.jstring).map ustr = ss := by
  induction ss with
  | nil => rfl
  | cons a t ih => simp [ustr, ih]

theorem map_ustr_comp_jstring (ss : List String) :
    ss.map (ustr ∘ JValue.jstring) = ss := by
  simpa using map_ustr_jstring ss

/-- C5: for an rc element with a resolvable `bin`: a missing or empty
`argv` yields the default argument vector `[bin]`; a non-empty all-string
`argv` is copied verbatim; runmode "" maps to foreground (flags 0), "&"
to background, "|" to pipe; and any other runmode string aborts fatally. -/
theorem C5_argv_runmode (bins : List String) (b : String) (m : Nat)
    (hm : getmain bins b = some m) (s : St) :
    (handle_bin bins (.jobject [("bin", .jstring b)]) s =
      ([], .ok ((), { s with plan := s.plan ++
        [{ main := m, argv := [b], flags := 0, workdir := none, sc := [] }] }))) ∧
    (handle_bin bins (.jobject [("bin", .jstring b), ("argv", .jarray [])]) s =
      ([], .ok ((), { s with plan := s.plan ++
        [{ main := m, argv := [b], flags := 0, workdir := none, sc := [] }] }))) ∧
    (∀ a as, handle_bin bins
        (.jobject [("bin", .jstring b), ("argv", .jarray ((a :: as).map .jstring))]) s =
      ([], .ok ((), { s with plan := s.plan ++
        [{ main := m, argv := a :: as, flags := 0, workdir := none, sc := [] }] }))) ∧
    (handle_bin bins (.jobject [("bin", .jstring b), ("runmode", .jstring "")]) s =
      ([], .ok ((), { s with plan := s.plan ++
        [{ main := m, argv := [b], flags := 0, workdir := none, sc := [] }] }))) ∧
    (handle_bin bins (.jobject [("bin", .jstring b), ("runmode", .jstring "&")]) s =
      ([], .ok ((), { s with plan := s.plan ++
        [{ main := m, argv := [b], flags := RUMPRUN_EXEC_BACKGROUND, workdir := none,
           sc := [] }] }))) ∧
    (handle_bin bins (.jobject [("bin", .jstring b), ("runmode", .jstring "|")]) s =
      ([], .ok ((), { s with plan := s.plan ++
        [{ main := m, argv := [b], flags := RUMPRUN_EXEC_PIPE, workdir := none,
           sc := [] }] }))) ∧
    (∀ r, r ≠ "" → r ≠ "&" → r ≠ "|" →
      handle_bin bins (.jobject [("bin", .jstring b), ("runmode", .jstring r)]) s =
        (["invalid runmode \"" ++ r ++ "\" for bin \"" ++ b ++ "\""],
         .error ("invalid runmode \"" ++ r ++ "\" for bin \"" ++ b ++ "\"", s))) := by
  refine ⟨?_, ?_, ?_, ?_, ?_, ?_, ?_⟩
  · simp [handle_bin, handle_bin_scan, jexpect, jkind, ustr, mbind, mpure, mthrow,
      hm, count_argv, runmode_flags, sysctl_parse, sysctl_parse_check, modSt]
  · simp [handle_bin, handle_bin_scan, jexpect, jkind, ustr, uarr, mbind, mpure,
      mthrow, hm, count_argv, runmode_flags, sysctl_parse, sysctl_parse_check, modSt]
  · intro a as
    simp [handle_bin, handle_bin_scan, jexpect, jkind, ustr, uarr, mbind, mpure,
      mthrow, hm, count_argv_strings_cons, runmode_flags, sysctl_parse,
      sysctl_parse_check, modSt, map_ustr_comp_jstring]
  · simp [handle_bin, handle_bin_scan, jexpect, jkind, ustr, mbind, mpure, mthrow,
      hm, count_argv, runmode_flags, sysctl_parse, sysctl_parse_check, modSt]
  · simp [handle_bin, handle_bin_scan, jexpect, jkind, ustr, mbind, mpure, mthrow,
      hm, count_argv, runmode_flags, sysctl_parse, sysctl_parse_check, modSt]
  · simp [handle_bin, handle_bin_scan, jexpect, jkind, ustr, mbind, mpure, mthrow,
      hm, count_argv, runmode_flags, sysctl_parse, sysctl_parse_check, modSt]
  · intro r h1 h2 h3
    simp [handle_bin, handle_bin_scan, jexpect, jkind, ustr, mbind, mpure, mthrow,
      hm, count_argv, runmode_flags, h1, h2, h3]

/-- Witness for C5: `{"bin":"foo","argv":["foo","-v"]}` yields argv copied
verbatim. -/
theorem C5_witness :
    handle_bin ["foo"]
        (.jobject [("bin", .jstring "foo"),
                   ("argv", .jarray (["foo", "-v"].map .jstring))]) st0 =
      ([], .ok ((), { st0 with plan := st0.plan ++
        [{ main := 0, argv := ["foo", "-v"], flags := 0, workdir := none,
           sc := [] }] })) :=
  (C5_argv_runmode ["foo"] "foo" 0 rfl st0).2.2.1 "foo" ["-v"]

/-! ## `bin` resolution (`getmain`) -/

theorem getmain_go_none (nm : String) (l : List String) (hnm : nm ∉ l) :
    ∀ i, getmain_go i l nm = none := by
  induction l with
  | nil => intro i; rfl
  | cons b t ih =>
    intro i
    unfold getmain_go
    have hbn : ¬(b = nm) := fun hb => hnm (by rw [← hb]; exact List.mem_cons_self b t)
    rw [if_neg hbn]
    exact ih (fun hmem => hnm (List.mem_cons_of_mem b hmem)) (i + 1)

/-- The nested netbsd scan of an rc element never records a `bin`. -/
theorem handle_bin_netbsd_v_bin (ps : List (String × JValue)) :
    ∀ acc s, OkImp (fun acc2 _ => acc2.v_bin = acc.v_bin)
      ((handle_bin_netbsd ps acc s).2) := by
  induction ps with
  | nil => intro acc s; exact rfl
  | cons p t ih =>
    intro acc s
    rcases p with ⟨n, w⟩
    unfold handle_bin_netbsd
    by_cases hn : n = "sysctl"
    · rw [if_pos hn]
      refine mbind_cases _ _ s _ (fun e => trivial) (fun a s1 _ => ?_)
      exact ih _ s1
    · rw [if_neg hn]
      exact trivial

/-- If no member is named `bin`, the scan leaves `v_bin` unset (or aborts
on some other ground). -/
theorem handle_bin_scan_no_bin (pairs : List (String × JValue))
    (hno : ∀ p ∈ pairs, p.1 ≠ "bin") :
    ∀ acc, acc.v_bin = none → ∀ s,
      OkImp (fun acc2 _ => acc2.v_bin = none)
        ((handle_bin_scan pairs acc s).2) := by
  induction pairs with
  | nil =>
    intro acc hacc s
    exact hacc
  | cons p t ih =>
    intro acc hacc s
    rcases p with ⟨n, w⟩
    have hn : n ≠ "bin" := hno (n, w) (List.mem_cons_self _ _)
    have ht : ∀ p ∈ t, p.1 ≠ "bin" := fun q hq => hno q (List.mem_cons_of_mem _ hq)
    unfold handle_bin_scan
    rw [if_neg hn]
    by_cases ha : n = "argv"
    · rw [if_pos ha]
      refine mbind_cases _ _ s _ (fun e => trivial) (fun a s1 _ => ?_)
      refine ih ht _ ?_ s1
      exact hacc
    · rw [if_neg ha]
      by_cases hr : n = "runmode"
      · rw [if_pos hr]
        refine mbind_cases _ _ s _ (fun e => trivial) (fun a s1 _ => ?_)
        refine ih ht _ ?_ s1
        exact hacc
      · rw [if_neg hr]
        by_cases hw : n = "workdir"
        · rw [if_pos hw]
          refine mbind_cases _ _ s _ (fun e => trivial) (fun a s1 _ => ?_)
          refine ih ht _ ?_ s1
          exact hacc
        · rw [if_neg hw]
          by_cases hb : n = "netbsd"
          · rw [if_pos hb]
            refine mbind_cases _ _ s _ (fun e => trivial) (fun a s1 _ => ?_)
            refine mbind_cases _ _ s1 _ (fun e => trivial) (fun acc2 s2 hok => ?_)
            have hsub := handle_bin_netbsd_v_bin (jpairs w) acc s1
            rw [hok] at hsub
            exact ih ht acc2 (hsub.trans hacc) s2
          · rw [if_neg hb]
            exact trivial

/-- C8: `bin` is required — an rc element without it aborts whatever else
it contains; a `bin` name neither in the registry nor equal to `*` aborts;
and `*` resolves to the first registry entry (index 0) regardless of that
entry's name, producing the entry appended to the plan. -/
theorem C8_bin_resolution (bins : List String) :
    (∀ pairs, (∀ p ∈ pairs, p.1 ≠ "bin") → ∀ s : St,
      isError (handle_bin bins (.jobject pairs) s)) ∧
    (∀ nm, nm ≠ "*" → nm ∉ bins → ∀ s : St,
      isError (handle_bin bins (.jobject [("bin", .jstring nm)]) s)) ∧
    (bins ≠ [] → ∀ s : St,
      handle_bin bins (.jobject [("bin", .jstring "*")]) s =
        ([], .ok ((), { s with plan := s.plan ++
          [{ main := 0, argv := ["*"], flags := 0, workdir := none,
             sc := [] }] }))) := by
  refine ⟨?_, ?_, ?_⟩
  · intro pairs hno s
    show OkImp _ ((handle_bin bins (.jobject pairs) s).2)
    unfold handle_bin
    refine mbind_cases _ _ s _ (fun e => trivial) (fun a s1 _ => ?_)
    refine mbind_cases _ _ s1 _ (fun e => trivial) (fun acc s2 hok => ?_)
    have hsub := handle_bin_scan_no_bin (jpairs (.jobject pairs)) hno
      ⟨none, none, none, none, none⟩ rfl s1
    rw [hok] at hsub
    rw [hsub]
    exact trivial
  · intro nm hstar hmem s
    have hgm : getmain bins nm = none := by
      unfold getmain
      rw [if_neg hstar]
      exact getmain_go_none nm bins hmem 0
    show OkImp _ ((handle_bin bins (.jobject [("bin", .jstring nm)]) s).2)
    have heval : handle_bin bins (.jobject [("bin", .jstring nm)]) s =
        (["unknown \"bin\" \"" ++ nm ++ "\" in rc entry"],
         .error ("unknown \"bin\" \"" ++ nm ++ "\" in rc entry", s)) := by
      simp [handle_bin, handle_bin_scan, jexpect, jkind, ustr, mbind, mpure,
        mthrow, hgm]
    rw [heval]
    exact trivial
  · intro hne s
    have hgm : getmain bins "*" = some 0 := by
      unfold getmain
      rw [if_pos rfl]
      cases bins with
      | nil => exact absurd rfl hne
      | cons b t => rfl
    simp [handle_bin, handle_bin_scan, jexpect, jkind, ustr, mbind, mpure, mthrow,
      hgm, count_argv, runmode_flags, sysctl_parse, sysctl_parse_check, modSt]

/-- Witness for C8: with registry `["foo","bar"]`, an element without
`bin` is fatal, an unknown name is fatal, and `"*"` resolves to the first
entry. -/
theorem C8_witness :
    isError (handle_bin ["foo", "bar"] (.jobject [("workdir", .jstring "/tmp")]) st0) ∧
    isError (handle_bin ["foo", "bar"] (.jobject [("bin", .jstring "baz")]) st0) ∧
    handle_bin ["foo", "bar"] (.jobject [("bin", .jstring "*")]) st0 =
      ([], .ok ((), { st0 with plan := st0.plan ++
        [{ main := 0, argv := ["*"], flags := 0, workdir := none, sc := [] }] })) :=
  ⟨(C8_bin_resolution ["foo", "bar"]).1 [("workdir", .jstring "/tmp")]
      (by intro p hp; simp at hp; rw [hp]; decide) st0,
   (C8_bin_resolution ["foo", "bar"]).2.1 "baz" (by decide) (by decide) st0,
   (C8_bin_resolution ["foo", "bar"]).2.2 (by decide) st0⟩

/-! ## Static IPv4 configuration -/

theorem takeWhile_append_all {α : Type} (p : α → Bool) :
    ∀ (l r : List α), (∀ c ∈ l, p c = true) →
      (l ++ r).takeWhile p = l ++ r.takeWhile p := by
  intro l
  induction l with
  | nil => intro r _; rfl
  | cons a t ih =>
    intro r hl
    have ha : p a = true := hl a (List.mem_cons_self _ _)
    simp only [List.cons_append, List.takeWhile_cons, ha, if_true]
    rw [ih r (fun c hc => hl c (List.mem_cons_of_mem _ hc))]

theorem dropWhile_append_all {α : Type} (p : α → Bool) :
    ∀ (l r : List α), (∀ c ∈ l, p c = true) →
      (l ++ r).dropWhile p = r.dropWhile p := by
  intro l
  induction l with
  | nil => intro r _; rfl
  | cons a t ih =>
    intro r hl
    have ha : p a = true := hl a (List.mem_cons_self _ _)
    simp only [List.cons_append, List.dropWhile_cons, ha, if_true]
    exact ih r (fun c hc => hl c (List.mem_cons_of_mem _ hc))

theorem dropWhile_all_nil {α : Type} (p : α → Bool) :
    ∀ l : List α, (∀ c ∈ l, p c = true) → l.dropWhile p = [] := by
  intro l
  induction l with
  | nil => intro _; rfl
  | cons a t ih =>
    intro hl
    simp only [List.dropWhile_cons, hl a (List.mem_cons_self _ _), if_true]
    exact ih (fun c hc => hl c (List.mem_cons_of_mem _ hc))

/-- Splitting at the first '/' of `a ++ "/" ++ b` when `a` holds none. -/
theorem strchr_split_append (a b : String) (ha : ∀ c ∈ a.data, c ≠ '/') :
    strchr_split (a ++ "/" ++ b) = some (a, b) := by
  unfold strchr_split
  have hdata : (a ++ "/" ++ b).data = a.data ++ ('/' :: b.data) := by
    simp [String.data_append]
  have hall : ∀ c ∈ a.data, (fun c => decide ¬(c = '/')) c = true := by
    intro c hc
    simp [ha c hc]
  rw [hdata, dropWhile_append_all _ _ _ hall, takeWhile_append_all _ _ _ hall]
  simp only [List.dropWhile_cons, List.takeWhile_cons, decide_not]
  simp

/-- A string with no '/' does not split. -/
theorem strchr_split_none (c : String) (hc : ∀ ch ∈ c.data, ch ≠ '/') :
    strchr_split c = none := by
  unfold strchr_split
  have hall : ∀ ch ∈ c.data, (fun ch => decide ¬(ch = '/')) ch = true := by
    intro ch hch
    simp [hc ch hch]
  rw [dropWhile_all_nil _ _ hall]

/-- C6: a static IPv4 address is split at the first '/' with the prefix
length parsed by `atoi`: `10.0.0.5/24` invokes the static-assign
capability with address `10.0.0.5` and prefix 24, while a wholly
non-numeric prefix part parses as 0 and is still accepted; a missing
`addr`, or one with no '/', is fatal. -/
theorem C6_static_ipv4 (ifname : String) (s : St) :
    (∀ a b : String, (∀ ch ∈ a.data, ch ≠ '/') →
      config_ipv4 ifname "static" (some (a ++ "/" ++ b)) s =
        ([], .ok ((), { s with acts := s.acts ++ [.ifaddr4 ifname a (atoi b)] }))) ∧
    (config_ipv4 "xenif0" "static" (some "10.0.0.5/24") s =
      ([], .ok ((), { s with acts := s.acts ++
        [.ifaddr4 "xenif0" "10.0.0.5" 24] }))) ∧
    (config_ipv4 "xenif0" "static" (some "10.0.0.5/abc") s =
      ([], .ok ((), { s with acts := s.acts ++
        [.ifaddr4 "xenif0" "10.0.0.5" 0] }))) ∧
    isError (config_ipv4 ifname "static" none s) ∧
    (∀ c : String, (∀ ch ∈ c.data, ch ≠ '/') →
      isError (config_ipv4 ifname "static" (some c) s)) := by
  refine ⟨?_, rfl, rfl, ?_, ?_⟩
  · intro a b ha
    unfold config_ipv4
    rw [if_neg (by decide), if_pos rfl]
    dsimp only
    rw [strchr_split_append a b ha]
    rfl
  · unfold config_ipv4
    rw [if_neg (by decide), if_pos rfl]
    exact trivial
  · intro c hc
    unfold config_ipv4
    rw [if_neg (by decide), if_pos rfl]
    dsimp only
    rw [strchr_split_none c hc]
    exact trivial

/-- Witness for C6: the spec's own example plus the permissive-parse edge
case and both fatal cases at concrete inputs. -/
theorem C6_witness :
    config_ipv4 "xenif0" "static" (some ("10.0.0.5" ++ "/" ++ "24")) st0 =
      ([], .ok ((), { st0 with acts := st0.acts ++
        [.ifaddr4 "xenif0" "10.0.0.5" (atoi "24")] })) ∧
    isError (config_ipv4 "xenif0" "static" none st0) ∧
    isError (config_ipv4 "xenif0" "static" (some "10.0.0.5") st0) :=
  ⟨(C6_static_ipv4 "xenif0" st0).1 "10.0.0.5" "24" (by decide),
   (C6_static_ipv4 "xenif0" st0).2.2.2.1,
   (C6_static_ipv4 "xenif0" st0).2.2.2.2 "10.0.0.5" (by decide)⟩

/-! ## DNS: caps, file content, and the no-op case -/

theorem mbind_modSt_left {β : Type} (f : St → St) (g : Unit → M β) (s : St) :
    mbind (modSt f) g s = g () (f s) := by
  simp [mbind, modSt]

theorem mbind_emit_left {β : Type} (a : Action) (g : Unit → M β) (s : St) :
    mbind (emit a) g s = g () { s with acts := s.acts ++ [a] } := by
  simp [emit, mbind_modSt_left]

theorem jexpect_kstring (a : String) (loc : String) :
    jexpect .kstring (.jstring a) loc = mpure () := by
  unfold jexpect
  simp [jkind]

theorem mbind_isError {α β : Type} {x : M α} {f : α → M β} {s : St}
    (h : isError (x s)) : isError (mbind x f s) := by
  unfold mbind
  rcases hx : x s with ⟨w, e⟩
  cases e with
  | error e0 => exact trivial
  | ok as1 =>
    rw [hx] at h
    exact absurd h (by simp [isError, OkImp])

/-- More than 3 nameserver entries abort, whatever the entries are. -/
theorem dns_ns_loop_isError (l : List JValue) :
    ∀ n s, n ≤ 3 → 3 < n + l.length → isError (dns_ns_loop dns_maxlen l n s) := by
  induction l with
  | nil =>
    intro n s h3 hgt
    simp at hgt
    omega
  | cons a t ih =>
    intro n s h3 hgt
    show OkImp _ ((mbind (jexpect .kstring a "handle_dns") _) s).2
    refine mbind_cases _ _ s _ (fun e => trivial) (fun _ s1 _ => ?_)
    by_cases h4 : n + 1 > 3
    · rw [if_pos h4]
      exact trivial
    · rw [if_neg h4]
      by_cases hl : dns_maxlen ≤ ("nameserver " ++ ustr a ++ "\n").length
      · rw [if_pos hl]
        exact trivial
      · rw [if_neg hl]
        show isError ((mbind (emit _) _) s1)
        rw [mbind_emit_left]
        refine ih (n + 1) _ (by omega) ?_
        simp at hgt ⊢
        omega

/-- More than 6 search entries abort, whatever the entries are. -/
theorem dns_search_loop_isError (l : List JValue) :
    ∀ n mlen buf s, n ≤ 6 → 6 < n + l.length →
      isError (dns_search_loop l n mlen buf s) := by
  induction l with
  | nil =>
    intro n mlen buf s h6 hgt
    simp at hgt
    omega
  | cons a t ih =>
    intro n mlen buf s h6 hgt
    show OkImp _ ((mbind (jexpect .kstring a "handle_dns") _) s).2
    refine mbind_cases _ _ s _ (fun e => trivial) (fun _ s1 _ => ?_)
    by_cases h7 : n + 1 > 6
    · rw [if_pos h7]
      exact trivial
    · rw [if_neg h7]
      by_cases hl : mlen ≤ ((if n + 1 = 1 then "search" else "") ++ " " ++ ustr a ++
          (if t.isEmpty then "\n" else "")).length
      · rw [if_pos hl]
        exact trivial
      · rw [if_neg hl]
        refine ih (n + 1) _ _ s1 (by omega) ?_
        simp at hgt ⊢
        omega

/-- The member scan of `handle_dns` does not change `nameservers` when no
further pair carries that key. -/
theorem dns_scan_ns_preserved (rest : List (String × JValue))
    (hno : ∀ p ∈ rest, p.1 ≠ "nameservers") :
    ∀ acc s, OkImp (fun acc2 _ => acc2.nameservers = acc.nameservers)
      ((dns_scan rest acc s).2) := by
  induction rest with
  | nil => intro acc s; exact rfl
  | cons p t ih =>
    intro acc s
    rcases p with ⟨n, w⟩
    have hn : n ≠ "nameservers" := hno (n, w) (List.mem_cons_self _ _)
    have ht : ∀ p ∈ t, p.1 ≠ "nameservers" :=
      fun q hq => hno q (List.mem_cons_of_mem _ hq)
    unfold dns_scan
    rw [if_neg hn]
    by_cases hs : n = "search"
    · rw [if_pos hs]
      refine mbind_cases _ _ s _ (fun e => trivial) (fun _ s1 _ => ?_)
      exact ih ht _ s1
    · rw [if_neg hs]
      refine mbind_cases _ _ s _ (fun e => trivial) (fun _ s1 _ => ?_)
      exact ih ht _ s1

/-- With neither `nameservers` nor `search` present, the scan only warns:
one warning per pair, state untouched. -/
theorem dns_scan_no_keys (pairs : List (String × JValue))
    (hno : ∀ p ∈ pairs, p.1 ≠ "nameservers" ∧ p.1 ≠ "search") :
    ∀ acc s, dns_scan pairs acc s =
      (pairs.map (fun p => "handle_dns: unexpected key \"" ++ p.1 ++ "\", ignored"),
       .ok (acc, s)) := by
  induction pairs with
  | nil => intro acc s; rfl
  | cons p t ih =>
    intro acc s
    rcases p with ⟨n, w⟩
    have hn := hno (n, w) (List.mem_cons_self _ _)
    have ht : ∀ p ∈ t, p.1 ≠ "nameservers" ∧ p.1 ≠ "search" :=
      fun q hq => hno q (List.mem_cons_of_mem _ hq)
    unfold dns_scan
    rw [if_neg hn.1, if_neg hn.2]
    show (mbind (mwarn _) _) s = _
    unfold mbind mwarn
    simp only
    rw [ih ht acc s]
    rfl

/-- Evaluation of the nameserver loop on fitting string entries. -/
theorem dns_ns_loop_eval (ss : List String) :
    ∀ n, n + ss.length ≤ 3 →
      (∀ a ∈ ss, ("nameserver " ++ a ++ "\n").length < dns_maxlen) →
      ∀ s, dns_ns_loop dns_maxlen (ss.map .jstring) n s =
        ([], .ok ((),
          { s with acts :=
              s.acts ++ ss.map (fun a => Action.resolvWrite ("nameserver " ++ a ++ "\n")) })) := by
  induction ss with
  | nil => intro n _ _ s; simp [dns_ns_loop, mpure]
  | cons a t ih =>
    intro n hn hlen s
    show (mbind (jexpect .kstring (.jstring a) "handle_dns") _) s = _
    rw [jexpect_kstring, mbind_mpure_left]
    have hc : ¬(n + 1 > 3) := by simp at hn ⊢; omega
    rw [if_neg hc]
    have hl : ¬(dns_maxlen ≤ ("nameserver " ++ ustr (.jstring a) ++ "\n").length) := by
      have h0 := hlen a (List.mem_cons_self _ _)
      simp [ustr, String.length_append] at h0 ⊢
      omega
    rw [if_neg hl]
    rw [mbind_emit_left]
    rw [ih (n + 1) (by simp at hn ⊢; omega)
      (fun b hb => hlen b (List.mem_cons_of_mem _ hb))]
    simp [ustr]

/-- Literal token lengths used by the resolver-file size analysis. -/
theorem len_space : (" " : String).length = 1 := rfl

theorem len_nl : ("\n" : String).length = 1 := rfl

theorem len_search_tok : ("search" : String).length = 6 := rfl

theorem len_empty_str : ("" : String).length = 0 := rfl

/-- The tail of the space-joined search line (all entries but the first
contribute " domain"; the last also ends the line). -/
def dns_tail : List String → String
  | [] => ""
  | [a] => " " ++ a ++ "\n"
  | a :: rest => " " ++ a ++ dns_tail rest

/-- Buffer budget consumed by the search-line loop. -/
def dns_need : List String → Nat
  | [] => 0
  | a :: rest => 2 + a.length + dns_need rest

/-- Evaluation of the search loop past the first entry. -/
theorem dns_search_loop_eval_tail (ss : List String) :
    ∀ n mlen buf, 1 ≤ n → n + ss.length ≤ 6 → dns_need ss < mlen →
      dns_search_loop (ss.map .jstring) n mlen buf =
        mpure (buf ++ dns_tail ss) := by
  induction ss with
  | nil =>
    intro n mlen buf _ _ _
    simp [dns_search_loop, dns_tail, String.append_empty]
  | cons a t ih =>
    intro n mlen buf h1 h6 hbud
    show mbind (jexpect .kstring (.jstring a) "handle_dns") _ = _
    rw [jexpect_kstring, mbind_mpure_left]
    have hc : ¬(n + 1 > 6) := by simp at h6 ⊢; omega
    rw [if_neg hc]
    have hn1 : ¬(n + 1 = 1) := by omega
    rw [if_neg hn1]
    simp only [dns_need] at hbud
    cases t with
    | nil =>
      split
      · dsimp only
        split
        · next hcon =>
          exfalso
          simp only [String.length_append, len_space, len_nl, len_empty_str,
            ustr, dns_need] at hcon hbud
          omega
        · simp only [dns_search_loop, dns_tail, ustr, String.empty_append,
            String.append_assoc]
      · next hbad => exact absurd rfl hbad
    | cons b t2 =>
      split
      · next hbad => exact absurd hbad (by simp)
      · dsimp only
        split
        · next hcon =>
          exfalso
          simp only [String.length_append, len_space, len_empty_str,
            ustr] at hcon
          omega
        · rw [ih (n + 1) _ _ (by omega) (by simp at h6 ⊢; omega)
            (by
              simp only [String.length_append, len_space, len_empty_str, ustr]
              omega)]
          have htl : dns_tail (a :: b :: t2) = " " ++ a ++ dns_tail (b :: t2) := rfl
          rw [htl]
          simp only [ustr, String.empty_append, String.append_empty,
            String.append_assoc]

/-- Evaluation of the whole search loop: a non-empty fitting list of
string entries yields `"search"` followed by one " domain" per entry and
a final newline. -/
theorem dns_search_loop_eval (d : String) (ds : List String)
    (h6 : ds.length + 1 ≤ 6) (hbud : dns_need (d :: ds) + 6 < dns_maxlen) :
    dns_search_loop ((d :: ds).map .jstring) 0 dns_maxlen "" =
      mpure ("search" ++ dns_tail (d :: ds)) := by
  show mbind (jexpect .kstring (.jstring d) "handle_dns") _ = _
  rw [jexpect_kstring, mbind_mpure_left]
  rw [if_neg (by decide : ¬(0 + 1 > 6)), if_pos (by decide : (0 : Nat) + 1 = 1)]
  cases ds with
  | nil =>
    split
    · dsimp only
      split
      · next hcon =>
        exfalso
        simp only [String.length_append, len_space, len_nl, len_search_tok,
          ustr, dns_maxlen] at hcon
        simp only [dns_need, dns_maxlen] at hbud
        omega
      · simp only [dns_search_loop, dns_tail, ustr, String.empty_append,
          String.append_assoc]
    · next hbad => exact absurd rfl hbad
  | cons b t2 =>
    split
    · next hbad => exact absurd hbad (by simp)
    · dsimp only
      split
      · next hcon =>
        exfalso
        simp only [String.length_append, len_space, len_search_tok,
          len_empty_str, ustr, dns_maxlen] at hcon
        simp only [dns_need, dns_maxlen] at hbud
        omega
      · rw [dns_search_loop_eval_tail (b :: t2) (0 + 1) _ _ (by omega)
          (by simp at h6 ⊢; omega)
          (by
            simp only [dns_need, dns_maxlen] at hbud ⊢
            simp only [String.length_append, len_space, len_search_tok,
              len_empty_str, ustr, dns_maxlen]
            omega)]
        have htl : dns_tail (d :: b :: t2) = " " ++ d ++ dns_tail (b :: t2) := rfl
        rw [htl]
        simp only [ustr, String.empty_append, String.append_empty,
          String.append_assoc]

theorem jexpect_kobject (pairs : List (String × JValue)) (loc : String) :
    jexpect .kobject (.jobject pairs) loc = mpure () := by
  unfold jexpect
  simp [jkind]

theorem jexpect_karray (l : List JValue) (loc : String) :
    jexpect .karray (.jarray l) loc = mpure () := by
  unfold jexpect
  simp [jkind]

theorem mbind_eval {α β : Type} {x : M α} {f : α → M β} {s : St}
    {w : List String} {a : α} {s1 : St} (hx : x s = (w, .ok (a, s1))) :
    mbind x f s = (w ++ (f a s1).1, (f a s1).2) := by
  unfold mbind
  rw [hx]

theorem mbind_eval_nilw {α β : Type} {x : M α} {f : α → M β} {s : St}
    {a : α} {s1 : St} (hx : x s = ([], .ok (a, s1))) :
    mbind x f s = f a s1 := by
  rw [mbind_eval hx]
  simp

/-- C7: the DNS translator's caps and output.  (1) A `nameservers` array
with more than 3 entries is fatal, whatever else the object or the array
holds.  (2) A `search` array with more than 6 entries is fatal.  (3) With
exactly 3 (fitting) nameservers and exactly 6 (fitting) search domains,
the resolver file is opened and written with exactly one
"nameserver <addr>\n" line per nameserver in order, followed by one
space-joined search line.  (4) With neither key present, nothing is
opened or written: the state is returned untouched, only unknown-key
warnings are emitted. -/
theorem C7_dns_caps_and_content (nm : String) :
    (∀ (l : List JValue) (rest : List (String × JValue)) (s : St),
      (∀ p ∈ rest, p.1 ≠ "nameservers") → 3 < l.length →
      isError (handle_dns nm (.jobject (("nameservers", .jarray l) :: rest)) s)) ∧
    (∀ (l : List JValue) (rest : List (String × JValue)) (s : St),
      (∀ p ∈ rest, p.1 ≠ "nameservers" ∧ p.1 ≠ "search") → 6 < l.length →
      isError (handle_dns nm (.jobject (("search", .jarray l) :: rest)) s)) ∧
    (∀ n1 n2 n3 d1 d2 d3 d4 d5 d6 : String, ∀ s : St,
      n1.length ≤ 1000 → n2.length ≤ 1000 → n3.length ≤ 1000 →
      d1.length ≤ 100 → d2.length ≤ 100 → d3.length ≤ 100 →
      d4.length ≤ 100 → d5.length ≤ 100 → d6.length ≤ 100 →
      handle_dns nm (.jobject
        [("nameservers", .jarray [.jstring n1, .jstring n2, .jstring n3]),
         ("search", .jarray [.jstring d1, .jstring d2, .jstring d3,
                             .jstring d4, .jstring d5, .jstring d6])]) s =
      ([], .ok ((),
        { s with
          dirs := if "/etc" ∈ s.dirs then s.dirs else "/etc" :: s.dirs,
          acts := s.acts ++
            (if "/etc" ∈ s.dirs then [] else [Action.mkdirAct "/etc"]) ++
            [Action.resolvOpen,
             Action.resolvWrite ("nameserver " ++ n1 ++ "\n"),
             Action.resolvWrite ("nameserver " ++ n2 ++ "\n"),
             Action.resolvWrite ("nameserver " ++ n3 ++ "\n"),
             Action.resolvWrite
               ("search" ++ dns_tail [d1, d2, d3, d4, d5, d6])] }))) ∧
    (∀ (pairs : List (String × JValue)) (s : St),
      (∀ p ∈ pairs, p.1 ≠ "nameservers" ∧ p.1 ≠ "search") →
      handle_dns nm (.jobject pairs) s =
        (pairs.map (fun p => "handle_dns: unexpected key \"" ++ p.1 ++ "\", ignored"),
         .ok ((), s))) := by
  refine ⟨?_, ?_, ?_, ?_⟩
  · -- (1) nameserver cap
    intro l rest s hno h3
    have hpres : ∀ s0 : St, OkImp (fun acc2 (_ : St) => acc2.nameservers = some l)
        ((dns_scan (("nameservers", .jarray l) :: rest) ⟨none, none⟩ s0).2) := by
      intro s0
      show OkImp _ ((mbind (jexpect .karray (.jarray l) "handle_dns")
        (fun _ => dns_scan rest ⟨some l, none⟩) s0).2)
      refine mbind_cases _ _ s0 _ (fun e => trivial) (fun _ s1 _ => ?_)
      exact dns_scan_ns_preserved rest hno ⟨some l, none⟩ s1
    show OkImp _ ((handle_dns nm _ s).2)
    unfold handle_dns
    refine mbind_cases _ _ s _ (fun e => trivial) (fun _ s1 _ => ?_)
    refine mbind_cases _ _ s1 _ (fun e => trivial) (fun acc s2 hok => ?_)
    have hok2 : (dns_scan (("nameservers", .jarray l) :: rest)
        ⟨none, none⟩ s1).2 = .ok (acc, s2) := hok
    have h0 := hpres s1
    rw [hok2] at h0
    have hns : acc.nameservers = some l := h0
    rw [hns]
    dsimp only
    show isError ((mbind (mkdirCall "/etc") _) s2)
    simp only [mkdirCall]
    rw [mbind_modSt_left]
    show isError ((mbind (emit .resolvOpen) _) _)
    rw [mbind_emit_left]
    exact mbind_isError (dns_ns_loop_isError l 0 _ (by omega) (by omega))
  · -- (2) search cap
    intro l rest s hno h6
    have hscanA : ∀ s0 : St,
        dns_scan (("search", .jarray l) :: rest) ⟨none, none⟩ s0 =
          (rest.map (fun p => "handle_dns: unexpected key \"" ++ p.1 ++ "\", ignored"),
           .ok (⟨none, some l⟩, s0)) := by
      intro s0
      show (mbind (jexpect .karray (.jarray l) "handle_dns")
        (fun _ => dns_scan rest ⟨none, some l⟩)) s0 = _
      rw [jexpect_karray, mbind_mpure_left,
        dns_scan_no_keys rest hno ⟨none, some l⟩ s0]
    show OkImp _ ((handle_dns nm _ s).2)
    unfold handle_dns
    refine mbind_cases _ _ s _ (fun e => trivial) (fun _ s1 _ => ?_)
    refine mbind_cases _ _ s1 _ (fun e => trivial) (fun acc s2 hok => ?_)
    have hok2 : (dns_scan (("search", .jarray l) :: rest) ⟨none, none⟩ s1).2 =
        .ok (acc, s2) := hok
    rw [hscanA s1] at hok2
    have hinj : (Except.ok (((⟨none, some l⟩ : DnsScan), s1)) :
        Except (String × St) (DnsScan × St)) = .ok ((acc, s2)) := hok2
    cases hinj
    dsimp only
    show isError ((mbind (mkdirCall "/etc") _) s1)
    simp only [mkdirCall]
    rw [mbind_modSt_left]
    show isError ((mbind (emit .resolvOpen) _) _)
    rw [mbind_emit_left]
    show isError ((mbind (mpure ()) _) _)
    rw [mbind_mpure_left]
    exact mbind_isError (dns_search_loop_isError l 0 _ _ _ (by omega) (by omega))
  · -- (3) exactly 3 + 6: file content
    intro n1 n2 n3 d1 d2 d3 d4 d5 d6 s hn1 hn2 hn3 hd1 hd2 hd3 hd4 hd5 hd6
    unfold handle_dns
    rw [jexpect_kobject, mbind_mpure_left]
    have hscan : dns_scan (jpairs (.jobject
        [("nameservers", .jarray [.jstring n1, .jstring n2, .jstring n3]),
         ("search", .jarray [.jstring d1, .jstring d2, .jstring d3,
                             .jstring d4, .jstring d5, .jstring d6])]))
        ⟨none, none⟩ s =
        ([], .ok (⟨some [.jstring n1, .jstring n2, .jstring n3],
                   some [.jstring d1, .jstring d2, .jstring d3,
                         .jstring d4, .jstring d5, .jstring d6]⟩, s)) := rfl
    rw [mbind_eval_nilw hscan]
    dsimp only
    have hnse := dns_ns_loop_eval [n1, n2, n3] 0 (by simp)
      (by
        intro a ha
        simp only [List.mem_cons, List.not_mem_nil, or_false] at ha
        rcases ha with rfl | rfl | rfl <;>
          · simp only [String.length_append, len_nl, dns_maxlen]
            have : ("nameserver " : String).length = 11 := rfl
            omega)
    simp only [List.map_cons, List.map_nil] at hnse
    have hsearch := dns_search_loop_eval d1 [d2, d3, d4, d5, d6] (by simp)
      (by
        simp only [dns_need, dns_maxlen, len_space]
        omega)
    simp only [List.map_cons, List.map_nil] at hsearch
    by_cases hdir : "/etc" ∈ s.dirs
    · simp only [mkdirCall]
      rw [mbind_modSt_left, if_pos hdir, mbind_emit_left,
        mbind_eval_nilw (hnse _), mbind_eval_nilw (by rw [hsearch]; rfl),
        if_neg (by simp : ¬([JValue.jstring d1, .jstring d2, .jstring d3,
          .jstring d4, .jstring d5, .jstring d6].isEmpty = true))]
      simp [emit, modSt, hdir, List.append_assoc]
    · simp only [mkdirCall]
      rw [mbind_modSt_left, if_neg hdir, mbind_emit_left,
        mbind_eval_nilw (hnse _), mbind_eval_nilw (by rw [hsearch]; rfl),
        if_neg (by simp : ¬([JValue.jstring d1, .jstring d2, .jstring d3,
          .jstring d4, .jstring d5, .jstring d6].isEmpty = true))]
      simp [emit, modSt, hdir, List.append_assoc]
  · -- (4) neither key: untouched state, warnings only
    intro pairs s hno
    unfold handle_dns
    rw [jexpect_kobject, mbind_mpure_left]
    rw [mbind_eval (dns_scan_no_keys (jpairs (.jobject pairs)) hno ⟨none, none⟩ s)]
    simp [jpairs, mpure]

/-- Witness for C7: three fitting nameservers and six search domains at
concrete strings produce the full resolver file; four nameservers are
fatal. -/
theorem C7_witness :
    (handle_dns "dns" (.jobject
      [("nameservers", .jarray [.jstring "10.0.0.1", .jstring "10.0.0.2",
                                .jstring "10.0.0.3"]),
       ("search", .jarray [.jstring "a.org", .jstring "b.org", .jstring "c.org",
                           .jstring "d.org", .jstring "e.org", .jstring "f.org"])])
      st0 =
      ([], .ok ((),
        { st0 with
          dirs := if "/etc" ∈ st0.dirs then st0.dirs else "/etc" :: st0.dirs,
          acts := st0.acts ++
            (if "/etc" ∈ st0.dirs then [] else [Action.mkdirAct "/etc"]) ++
            [Action.resolvOpen,
             Action.resolvWrite ("nameserver " ++ "10.0.0.1" ++ "\n"),
             Action.resolvWrite ("nameserver " ++ "10.0.0.2" ++ "\n"),
             Action.resolvWrite ("nameserver " ++ "10.0.0.3" ++ "\n"),
             Action.resolvWrite ("search" ++
               dns_tail ["a.org", "b.org", "c.org", "d.org", "e.org", "f.org"])] }))) ∧
    isError (handle_dns "dns" (.jobject
      [("nameservers", .jarray [.jstring "x", .jstring "x", .jstring "x",
                                .jstring "x"])]) st0) :=
  ⟨(C7_dns_caps_and_content "dns").2.2.1 "10.0.0.1" "10.0.0.2" "10.0.0.3"
      "a.org" "b.org" "c.org" "d.org" "e.org" "f.org" st0
      (by decide) (by decide) (by decide) (by decide) (by decide) (by decide)
      (by decide) (by decide) (by decide),
   (C7_dns_caps_and_content "dns").1
      [.jstring "x", .jstring "x", .jstring "x", .jstring "x"] [] st0
      (by intro p hp; cases hp) (by decide)⟩

/-! ## Mount-point creation is not rolled back on an unknown source -/

/-- Iterated `mkdir` (the body of `mkdirhier`) always succeeds, leaves
every listed directory existing, and never removes one. -/
theorem mkdir_mfor_ok (l : List (List Char)) :
    ∀ s : St, ∃ s' : St,
      mfor l (fun cs => mkdirCall (String.mk cs)) s = ([], .ok ((), s')) ∧
      (∀ cs ∈ l, String.mk cs ∈ s'.dirs) ∧ s.dirs ⊆ s'.dirs := by
  induction l with
  | nil =>
    intro s
    exact ⟨s, rfl, fun cs h => absurd h (List.not_mem_nil cs), fun x hx => hx⟩
  | cons c t ih =>
    intro s
    rw [mfor_cons]
    show ∃ s', (mbind (modSt _) _) s = _ ∧ _
    rw [mbind_modSt_left]
    set s1 : St := if String.mk c ∈ s.dirs then s
      else { s with dirs := String.mk c :: s.dirs, acts := s.acts ++ [.mkdirAct (String.mk c)] }
      with hs1
    have hmem : String.mk c ∈ s1.dirs := by
      rw [hs1]
      by_cases hc : String.mk c ∈ s.dirs
      · rw [if_pos hc]; exact hc
      · rw [if_neg hc]; exact List.mem_cons_self _ _
    have hsub1 : s.dirs ⊆ s1.dirs := by
      rw [hs1]
      by_cases hc : String.mk c ∈ s.dirs
      · rw [if_pos hc]; exact fun x hx => hx
      · rw [if_neg hc]; exact fun x hx => List.mem_cons_of_mem _ hx
    obtain ⟨s', hrun, hin, hsub⟩ := ih s1
    refine ⟨s', hrun, ?_, fun x hx => hsub (hsub1 hx)⟩
    intro cs hcs
    rcases List.mem_cons.mp hcs with rfl | hcs2
    · exact hsub hmem
    · exact hin cs hcs2

/-- `mkdirhier` always succeeds and afterwards every prefix chunk of the
path exists. -/
theorem mkdirhier_ok (path : String) (s : St) :
    ∃ s' : St, mkdirhier path s = ([], .ok ((), s')) ∧
      (∀ cs ∈ mkdirhier_chunks [] path.data, String.mk cs ∈ s'.dirs) ∧
      s.dirs ⊆ s'.dirs := by
  unfold mkdirhier
  exact mkdir_mfor_ok (mkdirhier_chunks [] path.data) s

/-- The probe loop rejects a source matching no mounter. -/
theorem run_mounters_no_match
    (ms : List (String × (Option String → String → Option JValue → M Bool)))
    (src : String) (p : Option String) (mp : String) (o : Option JValue)
    (hno : ∀ e ∈ ms, src ≠ e.1) :
    run_mounters ms src p mp o = mthrow (unknown_source_msg src mp) := by
  induction ms with
  | nil => rfl
  | cons e t ih =>
    rcases e with ⟨nm2, f⟩
    unfold run_mounters
    rw [if_neg (hno (nm2, f) (List.mem_cons_self _ _))]
    exact ih (fun e2 he2 => hno e2 (List.mem_cons_of_mem _ he2))

/-- C10: a mount entry whose `source` is present but unknown first creates
every missing directory segment of the mount point — directories that
already exist are not an error — and only then aborts with the
unknown-source diagnostic, so the created directories survive the fatal
rejection: the error state contains every prefix chunk of the mount
point. -/
theorem C10_mount_unknown_source_keeps_dirs
    (mount_ok : String → String → Bool) (mp src : String) (s : St)
    (h1 : src ≠ "blk") (h2 : src ≠ "kernfs") (h3 : src ≠ "tmpfs") :
    ∃ s' : St,
      handle_mount mount_ok mp (.jobject [("source", .jstring src)]) s =
        ([unknown_source_msg src mp],
         .error (unknown_source_msg src mp, s')) ∧
      (∀ cs ∈ mkdirhier_chunks [] mp.data, String.mk cs ∈ s'.dirs) ∧
      s.dirs ⊆ s'.dirs := by
  unfold handle_mount
  have hscan : mount_scan (jpairs (.jobject [("source", .jstring src)]))
      ⟨none, none, none⟩ mp s = ([], .ok (⟨some src, none, none⟩, s)) := rfl
  obtain ⟨s', hmk, hin, hsub⟩ := mkdirhier_ok mp s
  refine ⟨s', ?_, hin, hsub⟩
  rw [jexpect_kobject, mbind_mpure_left, mbind_eval_nilw hscan]
  dsimp only
  rw [mbind_eval_nilw hmk]
  rw [run_mounters_no_match _ src none mp none ?_]
  · rfl
  · intro e he
    simp only [mounters, List.mem_cons, List.not_mem_nil, or_false] at he
    rcases he with rfl | rfl | rfl
    · exact h1
    · exact h2
    · exact h3

/-- Witness for C10: mounting `/data/db` from unknown source `nfs` fails
but leaves `/data` and `/data/db` created. -/
theorem C10_witness :
    ∃ s' : St,
      handle_mount (fun _ _ => true) "/data/db"
          (.jobject [("source", .jstring "nfs")]) st0 =
        ([unknown_source_msg "nfs" "/data/db"],
         .error (unknown_source_msg "nfs" "/data/db", s')) ∧
      (∀ cs ∈ mkdirhier_chunks [] "/data/db".data, String.mk cs ∈ s'.dirs) ∧
      st0.dirs ⊆ s'.dirs :=
  C10_mount_unknown_source_keeps_dirs (fun _ _ => true) "/data/db" "nfs" st0
    (by decide) (by decide) (by decide)

/-- C9: in the schema dispatcher, a pair whose name matches no table entry
produces exactly one non-fatal warning in pass 1 — which never errors and
never changes the state — and removing all unmatched pairs leaves the
dispatch outcome unchanged, while pass 2 still applies every matching
pair, per table slot, in enumeration order. -/
theorem C9_unknown_key_nonfatal (h : HandlerTable)
    (pairs : List (String × JValue)) (loc : String) :
    (∀ s, handle_object_pass1 h pairs loc s =
      (pass1_warnings h pairs loc, .ok ((), s))) ∧
    (handle_object_pass2 h pairs loc =
      mfor h (fun he =>
        mfor (pairs.filter (fun p => decide (p.1 = he.1)))
          (fun p => he.2 p.1 p.2))) ∧
    (∀ s, (handle_object h (.jobject pairs) loc s).2 =
      (handle_object h
        (.jobject (pairs.filter (fun p => (findHandler h p.1).isSome))) loc s).2) := by
  refine ⟨?_, handle_object_pass2_eq h pairs loc, ?_⟩
  · intro s
    rw [handle_object_pass1_eq]
  · intro s
    exact (handle_object_sndEq h pairs _ loc
      (fun he hhe => (filter_matched_of_key h he hhe pairs).symm) s)

end RumprunConfig
